import Mathlib

set_option maxHeartbeats 1000000

-- ======================================================================
-- Shallow embedding of the markdown lexer and parser of the `mark`
-- terminal markdown browser.  Sources:
--   src/markdown_parser/lexer/tokens.rs   (Token)
--   src/markdown_parser/lexer/lexer.rs    (Lexer::tokenize and helpers)
--   src/markdown_parser/parser/ast.rs     (AstNode and traversal utilities)
--   src/markdown_parser/parser/parser.rs  (Parser)
--   src/markdown_parser/parser/mod.rs     (parse_tokens, parse_markdown,
--                                          parse_markdown_or_default)
--   src/error.rs                          (LexerError, ParseError)
-- Strings are modelled as `List Char`; u8/u32/usize counters as `Nat`
-- (the one place a 32-bit bound matters, `read_number`, checks the bound
-- explicitly, as `str::parse::<u32>` does).  The parser's recursion is
-- fuel-indexed: `none` means the fuel ran out, `some (.error e)` is a
-- genuine parse failure, `some (.ok x)` a success.
-- ======================================================================

-- Token (tokens.rs)

inductive Token where
  | Text (s : List Char)
  | Newline
  | Whitespace
  | Eof
  | Hash (n : Nat)
  | Asterisk (n : Nat)
  | Underscore (n : Nat)
  | Tilde (n : Nat)
  | Backtick (n : Nat)
  | LeftBracket
  | RightBracket
  | LeftParen
  | RightParen
  | Exclamation
  | GreaterThan
  | Hyphen
  | Number (n : Nat)
  | Dot
  | Plus
  | Pipe
  | Colon
  | Url (s : List Char)
deriving DecidableEq, Repr

-- LexerError (error.rs)

inductive LexerError where
  | UnexpectedCharacter (character : Char) (line column : Nat)
  | UnterminatedCodeBlock (line column : Nat)
  | InvalidSyntax (message : String) (line column : Nat)
  | InvalidUrl (url : String) (line column : Nat)
  | NumberTooLarge (value : String) (line column : Nat)
deriving DecidableEq, Repr

-- Lexer helpers (lexer.rs)

def isWsChar (c : Char) : Bool := c == ' ' || c == '\t'

-- read_hashes / read_asterisks / read_backticks / read_underscores /
-- read_tildes all follow the same shape: greedily consume up to `cap`
-- copies of `ch` and return the count together with the rest.
def takeRun (ch : Char) : Nat → List Char → Nat × List Char
  | 0, cs => (0, cs)
  | _ + 1, [] => (0, [])
  | cap + 1, c :: cs =>
    if c == ch then
      let p := takeRun ch cap cs
      (p.1 + 1, p.2)
    else
      (0, c :: cs)

def u32Max : Nat := 4294967295

def digitsValAux : Nat → List Char → Nat
  | acc, [] => acc
  | acc, c :: cs => digitsValAux (acc * 10 + (c.toNat - '0'.toNat)) cs

def digitsVal (ds : List Char) : Nat := digitsValAux 0 ds

-- read_number (lexer.rs:152-174): collect the digit run, fail with
-- NumberTooLarge when str::parse::<u32> would overflow.
def readNumber (cs : List Char) (l col : Nat) :
    Except LexerError (Token × List Char × Nat × Nat) :=
  if digitsVal (cs.takeWhile Char.isDigit) ≤ u32Max then
    .ok (.Number (digitsVal (cs.takeWhile Char.isDigit)), cs.dropWhile Char.isDigit, l,
         col + (cs.takeWhile Char.isDigit).length)
  else
    .error (.NumberTooLarge (String.mk (cs.takeWhile Char.isDigit)) l col)

-- read_text stops at these characters (lexer.rs:194-195).  Note that
-- the dot, the colon and the digits are absent.
def textStop (c : Char) : Bool :=
  c == '\n' || c == '\r' || c == ' ' || c == '\t' || c == '#' || c == '*' ||
  c == '`' || c == '_' || c == '~' || c == '[' || c == ']' || c == '(' ||
  c == ')' || c == '!' || c == '>' || c == '-' || c == '|' || c == '+'

def startsWithL : List Char → List Char → Bool
  | [], _ => true
  | _ :: _, [] => false
  | p :: ps, c :: cs => p == c && startsWithL ps cs

-- read_text (lexer.rs:185-213); `c` is the already-dispatched first
-- character, `cs` the characters after it.
def textRunOf (c : Char) (cs : List Char) : List Char :=
  c :: cs.takeWhile (fun d => !textStop d)

def readText (c : Char) (cs : List Char) (l col : Nat) :
    Token × List Char × Nat × Nat :=
  (if startsWithL "http://".toList (textRunOf c cs) ||
      startsWithL "https://".toList (textRunOf c cs) ||
      startsWithL "ftp://".toList (textRunOf c cs) ||
      startsWithL "mailto:".toList (textRunOf c cs) then
     Token.Url (textRunOf c cs)
   else
     Token.Text (textRunOf c cs),
   cs.dropWhile (fun d => !textStop d), l, col + (textRunOf c cs).length)

-- read_token (lexer.rs:47-114).  `c` is the peeked character, `cs` the
-- characters after it; the result carries the rest of the input and the
-- updated line/column (the Rust code tracks them in `advance`).
def readToken (c : Char) (cs : List Char) (l col : Nat) :
    Except LexerError (Token × List Char × Nat × Nat) :=
  if c == '\n' then .ok (.Newline, cs, l + 1, 1)
  else if c == '\r' then
    match cs with
    | '\n' :: rest => .ok (.Newline, rest, l + 1, 1)
    | _ => .ok (.Newline, cs, l, col + 1)
  else if isWsChar c then
    let ws := (c :: cs).takeWhile isWsChar
    .ok (.Whitespace, (c :: cs).dropWhile isWsChar, l, col + ws.length)
  else if c == '#' then
    let p := takeRun '#' 6 (c :: cs)
    .ok (.Hash p.1, p.2, l, col + p.1)
  else if c == '*' then
    let p := takeRun '*' 3 (c :: cs)
    .ok (.Asterisk p.1, p.2, l, col + p.1)
  else if c == '`' then
    let p := takeRun '`' 4 (c :: cs)
    .ok (.Backtick p.1, p.2, l, col + p.1)
  else if c == '_' then
    let p := takeRun '_' 3 (c :: cs)
    .ok (.Underscore p.1, p.2, l, col + p.1)
  else if c == '[' then .ok (.LeftBracket, cs, l, col + 1)
  else if c == ']' then .ok (.RightBracket, cs, l, col + 1)
  else if c == '(' then .ok (.LeftParen, cs, l, col + 1)
  else if c == ')' then .ok (.RightParen, cs, l, col + 1)
  else if c == '!' then .ok (.Exclamation, cs, l, col + 1)
  else if c == '>' then .ok (.GreaterThan, cs, l, col + 1)
  else if c == '-' then .ok (.Hyphen, cs, l, col + 1)
  else if c == '.' then .ok (.Dot, cs, l, col + 1)
  else if c == '|' then .ok (.Pipe, cs, l, col + 1)
  else if c == ':' then .ok (.Colon, cs, l, col + 1)
  else if c.isDigit then readNumber (c :: cs) l col
  else if c == '~' then
    let p := takeRun '~' 3 (c :: cs)
    .ok (.Tilde p.1, p.2, l, col + p.1)
  else if c == '+' then .ok (.Plus, cs, l, col + 1)
  else .ok (readText c cs l col)

-- Lexer::tokenize (lexer.rs:23-35).  The fuel argument dominates the
-- number of remaining characters; `tokenize` supplies enough and a
-- lemma shows the fuel never runs out.
def tokenizeAux : Nat → List Char → Nat → Nat → Option (Except LexerError (List Token))
  | 0, _, _, _ => none
  | _ + 1, [], _, _ => some (.ok [.Eof])
  | fuel + 1, c :: cs, l, col =>
    match readToken c cs l col with
    | .error e => some (.error e)
    | .ok (t, rest, l', col') =>
      match tokenizeAux fuel rest l' col' with
      | none => none
      | some (.error e) => some (.error e)
      | some (.ok ts) => some (.ok (t :: ts))

def tokenize (cs : List Char) : Option (Except LexerError (List Token)) :=
  tokenizeAux (cs.length + 1) cs 1 1

-- AstNode (ast.rs:1-27)

inductive AstNode where
  | Document (children : List AstNode)
  | Heading (level : Nat) (content : List AstNode)
  | Paragraph (content : List AstNode)
  | List (ordered : Bool) (items : List AstNode)
  | ListItem (content : List AstNode)
  | BlockQuote (content : List AstNode)
  | CodeBlock (language : Option (List Char)) (code : List Char)
  | HorizontalRule
  | Table (headers : List AstNode) (rows : List (List AstNode))
  | TableCell (content : List AstNode)
  | TableRow (cells : List AstNode)
  | Text (s : List Char)
  | Bold (children : List AstNode)
  | Italic (children : List AstNode)
  | Strikethrough (children : List AstNode)
  | InlineCode (code : List Char)
  | Link (text : List AstNode) (url : List Char)
  | Image (alt : List AstNode) (url : List Char)
  | LineBreak
deriving Repr

-- ParseError (error.rs:86-144)

inductive ParseError where
  | UnexpectedToken (expected found : String) (line column : Nat)
  | UnexpectedEndOfInput (expected : String)
  | InvalidHeadingLevel (level : Nat) (line column : Nat)
  | MalformedLink (message : String) (line column : Nat)
  | MalformedImage (message : String) (line column : Nat)
  | InvalidList (message : String) (line column : Nat)
  | UnmatchedDelimiter (delimiter : Char) (line column : Nat)
  | InvalidTable (message : String) (line column : Nat)
deriving DecidableEq, Repr

-- From<LexerError> for ParseError (error.rs:146-195)

def lexerToParseError : LexerError → ParseError
  | .UnexpectedCharacter character line column =>
    .UnexpectedToken "valid markdown character" (String.mk [character]) line column
  | .UnterminatedCodeBlock line column => .UnmatchedDelimiter '`' line column
  | .InvalidSyntax message line column =>
    .UnexpectedToken "valid markdown syntax" message line column
  | .InvalidUrl url line column =>
    .MalformedLink ("Invalid URL: " ++ url) line column
  | .NumberTooLarge value line column =>
    .UnexpectedToken "valid number" value line column

-- Parser state (parser.rs:5-20)

structure PState where
  tokens : List Token
  current : Nat
  line : Nat
  column : Nat
deriving DecidableEq, Repr

def currentToken (s : PState) : Option Token := s.tokens.get? s.current

def peekPrevious (s : PState) : Option Token :=
  if 0 < s.current then s.tokens.get? (s.current - 1) else none

def isAtEnd (s : PState) : Bool :=
  decide (s.tokens.length ≤ s.current) ||
    (match currentToken s with
     | some .Eof => true
     | _ => false)

def advance (s : PState) : PState :=
  if isAtEnd s then s
  else
    match currentToken s with
    | some .Newline => { s with current := s.current + 1, line := s.line + 1, column := 1 }
    | _ => { s with current := s.current + 1, column := s.column + 1 }

-- skip_whitespace (parser.rs:723-727); the explicit counter is a bound
-- on the loop, always sufficient because each step consumes a token.
def skipWsAux : Nat → PState → PState
  | 0, s => s
  | n + 1, s =>
    match currentToken s with
    | some .Whitespace => skipWsAux n (advance s)
    | _ => s

def skipWhitespace (s : PState) : PState := skipWsAux (s.tokens.length - s.current) s

-- the `while matches Newline` loops inside the list/blockquote parsers
def skipNlAux : Nat → PState → PState
  | 0, s => s
  | n + 1, s =>
    match currentToken s with
    | some .Newline => skipNlAux n (advance s)
    | _ => s

def skipNewlines (s : PState) : PState := skipNlAux (s.tokens.length - s.current) s

-- is_horizontal_rule (parser.rs:729-740)
def hyphenRun : List Token → Nat
  | .Hyphen :: ts => hyphenRun ts + 1
  | _ => 0

def isHorizontalRule (s : PState) : Bool := decide (3 ≤ hyphenRun (s.tokens.drop s.current))

-- peek_next_is_block_start (parser.rs:742-762)
def blockStartScan : List Token → Bool
  | [] => false
  | t :: rest =>
    match t with
    | .Whitespace => blockStartScan rest
    | .Newline => blockStartScan rest
    | .Hash _ => true
    | .Number _ => true
    | .Hyphen => true
    | .Plus => true
    | .GreaterThan => true
    | .Pipe => true
    | .Backtick n => decide (3 ≤ n)
    | _ => false

def peekNextIsBlockStart (s : PState) : Bool :=
  blockStartScan (s.tokens.drop (s.current + 1))

-- The debug formatting `format!("{:?}", token)` used as a fallback
-- inside code blocks and inline code (parser.rs:217, 534).
def natDebug (n : Nat) : List Char := (toString n).toList

def tokenDebug : Token → List Char
  | .Text s => "Text(\"".toList ++ s ++ "\")".toList
  | .Newline => "Newline".toList
  | .Whitespace => "Whitespace".toList
  | .Eof => "Eof".toList
  | .Hash n => "Hash(".toList ++ natDebug n ++ [')']
  | .Asterisk n => "Asterisk(".toList ++ natDebug n ++ [')']
  | .Underscore n => "Underscore(".toList ++ natDebug n ++ [')']
  | .Tilde n => "Tilde(".toList ++ natDebug n ++ [')']
  | .Backtick n => "Backtick(".toList ++ natDebug n ++ [')']
  | .LeftBracket => "LeftBracket".toList
  | .RightBracket => "RightBracket".toList
  | .LeftParen => "LeftParen".toList
  | .RightParen => "RightParen".toList
  | .Exclamation => "Exclamation".toList
  | .GreaterThan => "GreaterThan".toList
  | .Hyphen => "Hyphen".toList
  | .Number n => "Number(".toList ++ natDebug n ++ [')']
  | .Dot => "Dot".toList
  | .Plus => "Plus".toList
  | .Pipe => "Pipe".toList
  | .Colon => "Colon".toList
  | .Url s => "Url(\"".toList ++ s ++ "\")".toList

-- Result plumbing for `Result<_, ParseError>` under the fuel Option.
def pbind {α β : Type} (x : Option (Except ParseError (α × PState)))
    (f : α → PState → Option (Except ParseError β)) :
    Option (Except ParseError β) :=
  match x with
  | none => none
  | some (.error e) => some (.error e)
  | some (.ok (a, s)) => f a s

-- ======================================================================
-- The recursive-descent parser (parser.rs:22-763).  One Lean function
-- per Rust method; each `while` loop becomes its own accumulator-passing
-- function.  Every recursive call strictly decreases the fuel.
-- ======================================================================

mutual

-- Parser::parse (parser.rs:22-32)
def parseDocLoop : Nat → List AstNode → PState → Option (Except ParseError (AstNode × PState))
  | 0, _, _ => none
  | fuel + 1, children, s =>
    if isAtEnd s then some (.ok (.Document children, s))
    else
      pbind (parseBlock fuel s) fun nodeOpt s' =>
        parseDocLoop fuel (children ++ nodeOpt.toList) s'
termination_by structural fuel _ _ => fuel

-- Parser::parse_block (parser.rs:34-61)
def parseBlock : Nat → PState → Option (Except ParseError (Option AstNode × PState))
  | 0, _ => none
  | fuel + 1, s0 =>
    let s := skipWhitespace s0
    match currentToken s with
    | some (.Hash level) =>
      pbind (parseHeading fuel level s) fun n s' => some (.ok (some n, s'))
    | some (.Number _) =>
      pbind (parseOrderedList fuel s) fun n s' => some (.ok (some n, s'))
    | some .Hyphen =>
      if isHorizontalRule s then
        pbind (parseHorizontalRule fuel s) fun n s' => some (.ok (some n, s'))
      else
        pbind (parseUnorderedList fuel s) fun n s' => some (.ok (some n, s'))
    | some .Plus =>
      pbind (parseUnorderedList fuel s) fun n s' => some (.ok (some n, s'))
    | some .GreaterThan =>
      pbind (parseBlockquote fuel s) fun n s' => some (.ok (some n, s'))
    | some (.Backtick amount) =>
      if 3 ≤ amount then
        pbind (parseCodeBlock fuel amount s) fun n s' => some (.ok (some n, s'))
      else
        pbind (parseParagraph fuel s) fun n s' => some (.ok (some n, s'))
    | some .Pipe =>
      pbind (parseTable fuel s) fun n s' => some (.ok (some n, s'))
    | some .Newline => some (.ok (none, advance s))
    | some _ =>
      pbind (parseParagraph fuel s) fun n s' => some (.ok (some n, s'))
    | none => some (.ok (none, s))

-- Parser::parse_heading (parser.rs:63-76)
def parseHeading : Nat → Nat → PState → Option (Except ParseError (AstNode × PState))
  | 0, _, _ => none
  | fuel + 1, level, s =>
    if 6 < level then some (.error (.InvalidHeadingLevel level s.line s.column))
    else
      pbind (untilNewlineLoop fuel [] (skipWhitespace (advance s))) fun content s' =>
        some (.ok (.Heading level content, s'))

-- Parser::parse_paragraph (parser.rs:78-101)
def parseParagraph : Nat → PState → Option (Except ParseError (AstNode × PState))
  | 0, _ => none
  | fuel + 1, s =>
    pbind (paragraphLoop fuel [] s) fun content s' =>
      some (.ok (.Paragraph content, s'))

def paragraphLoop : Nat → List AstNode → PState → Option (Except ParseError (List AstNode × PState))
  | 0, _, _ => none
  | fuel + 1, content, s =>
    match currentToken s with
    | some .Newline =>
      if peekNextIsBlockStart s then some (.ok (content, s))
      else paragraphLoop fuel (content ++ [.LineBreak]) (advance s)
    | some .Eof => some (.ok (content, s))
    | none => some (.ok (content, s))
    | some _ =>
      pbind (parseInlineContent fuel s) fun ns s' =>
        paragraphLoop fuel (content ++ ns) s'
termination_by structural fuel _ _ => fuel

-- Parser::parse_ordered_list (parser.rs:103-133)
def parseOrderedList : Nat → PState → Option (Except ParseError (AstNode × PState))
  | 0, _ => none
  | fuel + 1, s =>
    pbind (orderedListLoop fuel [] s) fun items s' =>
      some (.ok (.List true items, s'))

def orderedListLoop : Nat → List AstNode → PState → Option (Except ParseError (List AstNode × PState))
  | 0, _, _ => none
  | fuel + 1, items, s =>
    match currentToken s with
    | some (.Number _) =>
      let s1 := advance s
      match currentToken s1 with
      | some .Dot =>
        let s2 := skipWhitespace (advance s1)
        pbind (untilNewlineLoop fuel [] s2) fun content s3 =>
          orderedListLoop fuel (items ++ [.ListItem content]) (skipNewlines s3)
      | _ => some (.error (.InvalidList "Expected . after list number" s1.line s1.column))
    | _ => some (.ok (items, s))
termination_by structural fuel _ _ => fuel

-- Parser::parse_unordered_list (parser.rs:135-158)
def parseUnorderedList : Nat → PState → Option (Except ParseError (AstNode × PState))
  | 0, _ => none
  | fuel + 1, s =>
    pbind (unorderedListLoop fuel [] s) fun items s' =>
      some (.ok (.List false items, s'))

def unorderedListLoop : Nat → List AstNode → PState → Option (Except ParseError (List AstNode × PState))
  | 0, _, _ => none
  | fuel + 1, items, s =>
    match currentToken s with
    | some .Hyphen =>
      let s1 := skipWhitespace (advance s)
      pbind (untilNewlineLoop fuel [] s1) fun content s2 =>
        unorderedListLoop fuel (items ++ [.ListItem content]) (skipNewlines s2)
    | some .Plus =>
      let s1 := skipWhitespace (advance s)
      pbind (untilNewlineLoop fuel [] s1) fun content s2 =>
        unorderedListLoop fuel (items ++ [.ListItem content]) (skipNewlines s2)
    | _ => some (.ok (items, s))
termination_by structural fuel _ _ => fuel

-- Parser::parse_blockquote (parser.rs:160-177)
def parseBlockquote : Nat → PState → Option (Except ParseError (AstNode × PState))
  | 0, _ => none
  | fuel + 1, s =>
    pbind (blockquoteLoop fuel [] s) fun content s' =>
      some (.ok (.BlockQuote content, s'))

def blockquoteLoop : Nat → List AstNode → PState → Option (Except ParseError (List AstNode × PState))
  | 0, _, _ => none
  | fuel + 1, content, s =>
    match currentToken s with
    | some .GreaterThan =>
      let s1 := skipWhitespace (advance s)
      pbind (untilNewlineLoop fuel [] s1) fun lineContent s2 =>
        blockquoteLoop fuel (content ++ lineContent) (skipNewlines s2)
    | _ => some (.ok (content, s))
termination_by structural fuel _ _ => fuel

-- Parser::parse_code_block (parser.rs:179-224); the fence length is
-- received but unused, exactly as in the source.
def parseCodeBlock : Nat → Nat → PState → Option (Except ParseError (AstNode × PState))
  | 0, _, _ => none
  | fuel + 1, _fenceLength, s =>
    let s1 := advance s
    let langState : Option (List Char) × PState :=
      match currentToken s1 with
      | some (.Text lang) => (some lang, advance s1)
      | _ => (none, s1)
    match skipToLineEndLoop fuel langState.2 with
    | none => none
    | some s3 =>
      let s4 := advance s3
      match codeContentLoop fuel [] s4 with
      | none => none
      | some (code, s5) => some (.ok (.CodeBlock langState.1 code, s5))

-- the `while !(Newline|Eof) advance` loops (parser.rs:190-195, 276-281)
def skipToLineEndLoop : Nat → PState → Option PState
  | 0, _ => none
  | fuel + 1, s =>
    match currentToken s with
    | some .Newline => some s
    | some .Eof => some s
    | _ => skipToLineEndLoop fuel (advance s)
termination_by structural fuel _ => fuel

def codeContentLoop : Nat → List Char → PState → Option (List Char × PState)
  | 0, _, _ => none
  | fuel + 1, code, s =>
    match currentToken s with
    | some (.Backtick 3) => some (code, advance s)
    | some (.Backtick 4) => some (code, advance s)
    | some (.Backtick 5) => some (code, advance s)
    | some (.Text t) => codeContentLoop fuel (code ++ t) (advance s)
    | some .Newline => codeContentLoop fuel (code ++ ['\n']) (advance s)
    | some .Eof => some (code, s)
    | none => some (code, s)
    | some tok => codeContentLoop fuel (code ++ tokenDebug tok) (advance s)
termination_by structural fuel _ _ => fuel

-- Parser::parse_horizontal_rule (parser.rs:226-243)
def parseHorizontalRule : Nat → PState → Option (Except ParseError (AstNode × PState))
  | 0, _ => none
  | fuel + 1, s =>
    match hruleLoop fuel 0 s with
    | none => none
    | some (count, s') =>
      if count < 3 then
        some (.error (.InvalidList "Horizontal rule requires at least 3 hyphens" s'.line s'.column))
      else
        some (.ok (.HorizontalRule, s'))

def hruleLoop : Nat → Nat → PState → Option (Nat × PState)
  | 0, _, _ => none
  | fuel + 1, count, s =>
    match currentToken s with
    | some .Hyphen => hruleLoop fuel (count + 1) (advance s)
    | _ => some (count, s)
termination_by structural fuel _ _ => fuel

-- Parser::parse_table (parser.rs:245-314)
def parseTable : Nat → PState → Option (Except ParseError (AstNode × PState))
  | 0, _ => none
  | fuel + 1, s =>
    let hdrRes : Option (Except ParseError (List AstNode × PState)) :=
      match currentToken s with
      | some .Pipe => tableCellsRowLoop fuel [] (advance s)
      | _ => some (.ok ([], s))
    pbind hdrRes fun headers s2 =>
      let s3 := match currentToken s2 with
        | some .Newline => advance s2
        | _ => s2
      match skipToLineEndLoop fuel s3 with
      | none => none
      | some s4 =>
        let s5 := match currentToken s4 with
          | some .Newline => advance s4
          | _ => s4
        pbind (tableRowsLoop fuel [] s5) fun rows s6 =>
          some (.ok (.Table headers rows, s6))

-- the shared shape of the header-row and data-row cell loops
-- (parser.rs:254-267 and 291-304)
def tableCellsRowLoop : Nat → List AstNode → PState → Option (Except ParseError (List AstNode × PState))
  | 0, _, _ => none
  | fuel + 1, cells, s =>
    match currentToken s with
    | some .Newline => some (.ok (cells, s))
    | some .Eof => some (.ok (cells, s))
    | some .Pipe => tableCellsRowLoop fuel cells (advance s)
    | _ =>
      pbind (tableCellLoop fuel [] s) fun content s' =>
        tableCellsRowLoop fuel (cells ++ [.TableCell content]) s'
termination_by structural fuel _ _ => fuel

def tableRowsLoop : Nat → List (List AstNode) → PState → Option (Except ParseError (List (List AstNode) × PState))
  | 0, _, _ => none
  | fuel + 1, rows, s =>
    match currentToken s with
    | some .Pipe =>
      pbind (tableCellsRowLoop fuel [] (advance s)) fun rowCells s2 =>
        let s3 := match currentToken s2 with
          | some .Newline => advance s2
          | _ => s2
        tableRowsLoop fuel (rows ++ [rowCells]) s3
    | _ => some (.ok (rows, s))
termination_by structural fuel _ _ => fuel

-- Parser::parse_table_cell_content (parser.rs:316-344)
def tableCellLoop : Nat → List AstNode → PState → Option (Except ParseError (List AstNode × PState))
  | 0, _, _ => none
  | fuel + 1, content, s =>
    match currentToken s with
    | some .Pipe => some (.ok (content, s))
    | some .Newline => some (.ok (content, s))
    | some .Eof => some (.ok (content, s))
    | some (.Text t) => tableCellLoop fuel (content ++ [.Text t]) (advance s)
    | some (.Asterisk count) =>
      pbind (parseEmphasis fuel count s) fun node s' =>
        tableCellLoop fuel (content ++ [node]) s'
    | some .LeftBracket =>
      pbind (parseLinkOrImage fuel s) fun node s' =>
        tableCellLoop fuel (content ++ [node]) s'
    | some (.Backtick 1) =>
      pbind (parseInlineCode fuel s) fun node s' =>
        tableCellLoop fuel (content ++ [node]) s'
    | _ => tableCellLoop fuel content (advance s)
termination_by structural fuel _ _ => fuel

-- Parser::parse_inline_content_until_newline (parser.rs:346-381)
def untilNewlineLoop : Nat → List AstNode → PState → Option (Except ParseError (List AstNode × PState))
  | 0, _, _ => none
  | fuel + 1, content, s =>
    match currentToken s with
    | some .Newline => some (.ok (content, s))
    | some .Eof => some (.ok (content, s))
    | none => some (.ok (content, s))
    | some (.Text t) => untilNewlineLoop fuel (content ++ [.Text t]) (advance s)
    | some (.Asterisk count) =>
      pbind (parseEmphasis fuel count s) fun node s' =>
        untilNewlineLoop fuel (content ++ [node]) s'
    | some (.Underscore count) =>
      pbind (parseUnderscoreEmphasis fuel count s) fun node s' =>
        untilNewlineLoop fuel (content ++ [node]) s'
    | some .LeftBracket =>
      pbind (parseLinkOrImage fuel s) fun node s' =>
        untilNewlineLoop fuel (content ++ [node]) s'
    | some (.Backtick 1) =>
      pbind (parseInlineCode fuel s) fun node s' =>
        untilNewlineLoop fuel (content ++ [node]) s'
    | some (.Tilde 2) =>
      pbind (parseStrikethrough fuel s) fun node s' =>
        untilNewlineLoop fuel (content ++ [node]) s'
    | some .Whitespace => untilNewlineLoop fuel (content ++ [.Text [' ']]) (advance s)
    | some _ => untilNewlineLoop fuel content (advance s)
termination_by structural fuel _ _ => fuel

-- Parser::parse_inline_content (parser.rs:383-416)
def parseInlineContent : Nat → PState → Option (Except ParseError (List AstNode × PState))
  | 0, _ => none
  | fuel + 1, s =>
    match currentToken s with
    | some (.Text t) => some (.ok ([.Text t], advance s))
    | some (.Asterisk count) =>
      pbind (parseEmphasis fuel count s) fun node s' => some (.ok ([node], s'))
    | some (.Underscore count) =>
      pbind (parseUnderscoreEmphasis fuel count s) fun node s' => some (.ok ([node], s'))
    | some .LeftBracket =>
      pbind (parseLinkOrImage fuel s) fun node s' => some (.ok ([node], s'))
    | some (.Backtick 1) =>
      pbind (parseInlineCode fuel s) fun node s' => some (.ok ([node], s'))
    | some (.Tilde 2) =>
      pbind (parseStrikethrough fuel s) fun node s' => some (.ok ([node], s'))
    | some .Whitespace => some (.ok ([.Text [' ']], advance s))
    | _ => some (.ok ([], advance s))
termination_by structural fuel _ => fuel

-- Parser::parse_emphasis (parser.rs:418-448)
def parseEmphasis : Nat → Nat → PState → Option (Except ParseError (AstNode × PState))
  | 0, _, _ => none
  | fuel + 1, count, s =>
    pbind (emphasisLoop fuel count [] (advance s)) fun res s' =>
      if res.2 then
        match count with
        | 1 => some (.ok (.Italic res.1, s'))
        | 2 => some (.ok (.Bold res.1, s'))
        | _ => some (.ok (.Text (List.replicate count '*'), s'))
      else
        some (.error (.UnmatchedDelimiter '*' s'.line s'.column))
termination_by structural fuel _ _ => fuel

def emphasisLoop : Nat → Nat → List AstNode → PState → Option (Except ParseError ((List AstNode × Bool) × PState))
  | 0, _, _, _ => none
  | fuel + 1, count, content, s =>
    match currentToken s with
    | some (.Asterisk closingCount) =>
      if closingCount = count then some (.ok ((content, true), advance s))
      else
        pbind (parseInlineContent fuel s) fun ns s' =>
          emphasisLoop fuel count (content ++ ns) s'
    | some .Newline => some (.ok ((content, false), s))
    | some .Eof => some (.ok ((content, false), s))
    | none => some (.ok ((content, false), s))
    | some _ =>
      pbind (parseInlineContent fuel s) fun ns s' =>
        emphasisLoop fuel count (content ++ ns) s'
termination_by structural fuel _ _ _ => fuel

-- Parser::parse_underscore_emphasis (parser.rs:450-480)
def parseUnderscoreEmphasis : Nat → Nat → PState → Option (Except ParseError (AstNode × PState))
  | 0, _, _ => none
  | fuel + 1, count, s =>
    pbind (underscoreLoop fuel count [] (advance s)) fun res s' =>
      if res.2 then
        match count with
        | 1 => some (.ok (.Italic res.1, s'))
        | 2 => some (.ok (.Bold res.1, s'))
        | _ => some (.ok (.Text (List.replicate count '_'), s'))
      else
        some (.error (.UnmatchedDelimiter '_' s'.line s'.column))
termination_by structural fuel _ _ => fuel

def underscoreLoop : Nat → Nat → List AstNode → PState → Option (Except ParseError ((List AstNode × Bool) × PState))
  | 0, _, _, _ => none
  | fuel + 1, count, content, s =>
    match currentToken s with
    | some (.Underscore closingCount) =>
      if closingCount = count then some (.ok ((content, true), advance s))
      else
        pbind (parseInlineContent fuel s) fun ns s' =>
          underscoreLoop fuel count (content ++ ns) s'
    | some .Newline => some (.ok ((content, false), s))
    | some .Eof => some (.ok ((content, false), s))
    | none => some (.ok ((content, false), s))
    | some _ =>
      pbind (parseInlineContent fuel s) fun ns s' =>
        underscoreLoop fuel count (content ++ ns) s'
termination_by structural fuel _ _ _ => fuel

-- Parser::parse_strikethrough (parser.rs:482-508)
def parseStrikethrough : Nat → PState → Option (Except ParseError (AstNode × PState))
  | 0, _ => none
  | fuel + 1, s =>
    pbind (strikeLoop fuel [] (advance s)) fun res s' =>
      if res.2 then some (.ok (.Strikethrough res.1, s'))
      else some (.error (.UnmatchedDelimiter '~' s'.line s'.column))
termination_by structural fuel _ => fuel

def strikeLoop : Nat → List AstNode → PState → Option (Except ParseError ((List AstNode × Bool) × PState))
  | 0, _, _ => none
  | fuel + 1, content, s =>
    match currentToken s with
    | some (.Tilde 2) => some (.ok ((content, true), advance s))
    | some .Newline => some (.ok ((content, false), s))
    | some .Eof => some (.ok ((content, false), s))
    | none => some (.ok ((content, false), s))
    | some _ =>
      pbind (parseInlineContent fuel s) fun ns s' =>
        strikeLoop fuel (content ++ ns) s'
termination_by structural fuel _ _ => fuel

-- Parser::parse_inline_code (parser.rs:510-545)
def parseInlineCode : Nat → PState → Option (Except ParseError (AstNode × PState))
  | 0, _ => none
  | fuel + 1, s =>
    pbind (inlineCodeLoop fuel [] (advance s)) fun res s' =>
      if res.2 then some (.ok (.InlineCode res.1, s'))
      else some (.error (.UnmatchedDelimiter '`' s'.line s'.column))

def inlineCodeLoop : Nat → List Char → PState → Option (Except ParseError ((List Char × Bool) × PState))
  | 0, _, _ => none
  | fuel + 1, code, s =>
    match currentToken s with
    | some (.Backtick 1) => some (.ok ((code, true), advance s))
    | some (.Text t) => inlineCodeLoop fuel (code ++ t) (advance s)
    | some .Whitespace => inlineCodeLoop fuel (code ++ [' ']) (advance s)
    | some .Newline => some (.ok ((code, false), s))
    | some .Eof => some (.ok ((code, false), s))
    | none => some (.ok ((code, false), s))
    | some tok => inlineCodeLoop fuel (code ++ tokenDebug tok) (advance s)
termination_by structural fuel _ _ => fuel

-- Parser::parse_link_or_image (parser.rs:547-554)
def parseLinkOrImage : Nat → PState → Option (Except ParseError (AstNode × PState))
  | 0, _ => none
  | fuel + 1, s =>
    match peekPrevious s with
    | some .Exclamation => parseImage fuel s
    | _ => parseLink fuel s
termination_by structural fuel _ => fuel

-- Parser::parse_link (parser.rs:556-621)
def parseLink : Nat → PState → Option (Except ParseError (AstNode × PState))
  | 0, _ => none
  | fuel + 1, s =>
    pbind (linkTextLoop fuel [] (advance s)) fun text s2 =>
      match currentToken s2 with
      | some .LeftParen =>
        pbind (linkUrlLoop fuel [] (advance s2)) fun url s3 =>
          some (.ok (.Link text url, s3))
      | _ => some (.error (.MalformedLink "Expected ( after link text" s2.line s2.column))
termination_by structural fuel _ => fuel

def linkTextLoop : Nat → List AstNode → PState → Option (Except ParseError (List AstNode × PState))
  | 0, _, _ => none
  | fuel + 1, text, s =>
    match currentToken s with
    | some .RightBracket => some (.ok (text, advance s))
    | some .Eof =>
      some (.error (.MalformedLink "Unexpected end of input in link text" s.line s.column))
    | none => some (.ok (text, s))
    | some _ =>
      pbind (parseInlineContent fuel s) fun ns s' =>
        linkTextLoop fuel (text ++ ns) s'
termination_by structural fuel _ _ => fuel

def linkUrlLoop : Nat → List Char → PState → Option (Except ParseError (List Char × PState))
  | 0, _, _ => none
  | fuel + 1, url, s =>
    match currentToken s with
    | some .RightParen => some (.ok (url, advance s))
    | some (.Text t) => linkUrlLoop fuel (url ++ t) (advance s)
    | some (.Url u) => linkUrlLoop fuel (url ++ u) (advance s)
    | some .Eof =>
      some (.error (.MalformedLink "Unexpected end of input in link URL" s.line s.column))
    | none => some (.ok (url, s))
    | some _ => linkUrlLoop fuel url (advance s)
termination_by structural fuel _ _ => fuel

-- Parser::parse_image (parser.rs:623-688)
def parseImage : Nat → PState → Option (Except ParseError (AstNode × PState))
  | 0, _ => none
  | fuel + 1, s =>
    pbind (imageAltLoop fuel [] (advance s)) fun alt s2 =>
      match currentToken s2 with
      | some .LeftParen =>
        pbind (imageUrlLoop fuel [] (advance s2)) fun url s3 =>
          some (.ok (.Image alt url, s3))
      | _ => some (.error (.MalformedImage "Expected ( after image alt text" s2.line s2.column))
termination_by structural fuel _ => fuel

def imageAltLoop : Nat → List AstNode → PState → Option (Except ParseError (List AstNode × PState))
  | 0, _, _ => none
  | fuel + 1, alt, s =>
    match currentToken s with
    | some .RightBracket => some (.ok (alt, advance s))
    | some .Eof =>
      some (.error (.MalformedImage "Unexpected end of input in image alt text" s.line s.column))
    | none => some (.ok (alt, s))
    | some _ =>
      pbind (parseInlineContent fuel s) fun ns s' =>
        imageAltLoop fuel (alt ++ ns) s'
termination_by structural fuel _ _ => fuel

def imageUrlLoop : Nat → List Char → PState → Option (Except ParseError (List Char × PState))
  | 0, _, _ => none
  | fuel + 1, url, s =>
    match currentToken s with
    | some .RightParen => some (.ok (url, advance s))
    | some (.Text t) => imageUrlLoop fuel (url ++ t) (advance s)
    | some (.Url u) => imageUrlLoop fuel (url ++ u) (advance s)
    | some .Eof =>
      some (.error (.MalformedImage "Unexpected end of input in image URL" s.line s.column))
    | none => some (.ok (url, s))
    | some _ => imageUrlLoop fuel url (advance s)
termination_by structural fuel _ _ => fuel

end

-- parse_tokens (parser/mod.rs:11-16)
def parseTokens (fuel : Nat) (ts : List Token) : Option (Except ParseError AstNode) :=
  match parseDocLoop fuel [] ⟨ts, 0, 1, 1⟩ with
  | none => none
  | some (.error e) => some (.error e)
  | some (.ok (d, _)) => some (.ok d)

-- parse_markdown (parser/mod.rs:19-22); the `?` on tokenize uses
-- From<LexerError> for ParseError.
def parseMarkdown (fuel : Nat) (cs : List Char) : Option (Except ParseError AstNode) :=
  match tokenize cs with
  | none => none
  | some (.error e) => some (.error (lexerToParseError e))
  | some (.ok ts) => parseTokens fuel ts

-- parse_markdown_or_default (parser/mod.rs:25-27)
def parseMarkdownOrDefault (fuel : Nat) (cs : List Char) : AstNode :=
  match parseMarkdown fuel cs with
  | some (.ok d) => d
  | _ => .Document []

-- ======================================================================
-- AST traversal utilities (ast.rs:29-124)
-- ======================================================================

-- AstNode::is_inline (ast.rs:31-42)
def isInline : AstNode → Bool
  | .Text _ => true
  | .Bold _ => true
  | .Italic _ => true
  | .Strikethrough _ => true
  | .InlineCode _ => true
  | .Link _ _ => true
  | .Image _ _ => true
  | .LineBreak => true
  | _ => false

-- AstNode::is_block (ast.rs:45-47)
def isBlock (n : AstNode) : Bool := !isInline n

-- AstNode::text_content (ast.rs:50-88); children joined with "", block
-- children of a Document and list items with a newline, table cells
-- with " | ".
mutual

def textContent : AstNode → List Char
  | .Text t => t
  | .InlineCode c => c
  | .Bold children => textContentList children
  | .Italic children => textContentList children
  | .Strikethrough children => textContentList children
  | .Heading _ content => textContentList content
  | .Paragraph content => textContentList content
  | .ListItem content => textContentList content
  | .BlockQuote content => textContentList content
  | .TableCell content => textContentList content
  | .Link text _ => textContentList text
  | .Image alt _ => textContentList alt
  | .List _ items => textContentJoinNl items
  | .Table headers rows =>
    textContentJoinPipe headers ++ '\n' :: textContentRows rows
  | .TableRow cells => textContentJoinPipe cells
  | .CodeBlock _ code => code
  | .Document children => textContentJoinNl children
  | .HorizontalRule => "---".toList
  | .LineBreak => ['\n']

def textContentList : List AstNode → List Char
  | [] => []
  | n :: ns => textContent n ++ textContentList ns

def textContentJoinNl : List AstNode → List Char
  | [] => []
  | [n] => textContent n
  | n :: ns => textContent n ++ '\n' :: textContentJoinNl ns

def textContentJoinPipe : List AstNode → List Char
  | [] => []
  | [n] => textContent n
  | n :: ns => textContent n ++ " | ".toList ++ textContentJoinPipe ns

def textContentRows : List (List AstNode) → List Char
  | [] => []
  | [r] => textContentJoinPipe r
  | r :: rs => textContentJoinPipe r ++ '\n' :: textContentRows rs

end

-- whether a node is the ListItem constructor
def isListItemNode : AstNode → Bool
  | .ListItem _ => true
  | _ => false

-- The structural well-formedness stated by the specification: Document
-- children are blocks, the content sequences of Heading / Paragraph /
-- ListItem / BlockQuote and the Link text / Image alt sequences are
-- inline nodes, and List items are ListItem nodes; the condition is
-- demanded of every node of the tree.
mutual

def wfNode : AstNode → Bool
  | .Document cs => wfBlockList cs
  | .Heading _ content => wfInlineList content
  | .Paragraph content => wfInlineList content
  | .ListItem content => wfInlineList content
  | .BlockQuote content => wfInlineList content
  | .List _ items => wfListItemList items
  | .Link text _ => wfInlineList text
  | .Image alt _ => wfInlineList alt
  | .Bold cs => wfList cs
  | .Italic cs => wfList cs
  | .Strikethrough cs => wfList cs
  | .Table headers rows => wfList headers && wfRows rows
  | .TableCell content => wfList content
  | .TableRow cells => wfList cells
  | .Text _ => true
  | .InlineCode _ => true
  | .CodeBlock _ _ => true
  | .HorizontalRule => true
  | .LineBreak => true

def wfList : List AstNode → Bool
  | [] => true
  | n :: ns => wfNode n && wfList ns

def wfBlockList : List AstNode → Bool
  | [] => true
  | n :: ns => isBlock n && wfNode n && wfBlockList ns

def wfInlineList : List AstNode → Bool
  | [] => true
  | n :: ns => isInline n && wfNode n && wfInlineList ns

def wfListItemList : List AstNode → Bool
  | [] => true
  | n :: ns => isListItemNode n && wfNode n && wfListItemList ns

def wfRows : List (List AstNode) → Bool
  | [] => true
  | r :: rs => wfList r && wfRows rs

end

-- Every List node anywhere in the tree has a nonempty items sequence.
mutual

def noEmptyList : AstNode → Bool
  | .Document cs => noEmptyListAll cs
  | .Heading _ content => noEmptyListAll content
  | .Paragraph content => noEmptyListAll content
  | .ListItem content => noEmptyListAll content
  | .BlockQuote content => noEmptyListAll content
  | .List _ items =>
    (match items with
     | [] => false
     | _ :: _ => true) && noEmptyListAll items
  | .Link text _ => noEmptyListAll text
  | .Image alt _ => noEmptyListAll alt
  | .Bold cs => noEmptyListAll cs
  | .Italic cs => noEmptyListAll cs
  | .Strikethrough cs => noEmptyListAll cs
  | .Table headers rows => noEmptyListAll headers && noEmptyListRows rows
  | .TableCell content => noEmptyListAll content
  | .TableRow cells => noEmptyListAll cells
  | .Text _ => true
  | .InlineCode _ => true
  | .CodeBlock _ _ => true
  | .HorizontalRule => true
  | .LineBreak => true

def noEmptyListAll : List AstNode → Bool
  | [] => true
  | n :: ns => noEmptyList n && noEmptyListAll ns

def noEmptyListRows : List (List AstNode) → Bool
  | [] => true
  | r :: rs => noEmptyListAll r && noEmptyListRows rs

end

-- The whitespace collapsing named by the specification, modelled from
-- the spec text for the round-trip property: each run of spaces/tabs
-- becomes a single space.
def specCollapseAux : Bool → List Char → List Char
  | _, [] => []
  | prevWs, c :: cs =>
    if isWsChar c then
      if prevWs then specCollapseAux true cs
      else ' ' :: specCollapseAux true cs
    else
      c :: specCollapseAux false cs

def specCollapseWhitespace (cs : List Char) : List Char := specCollapseAux false cs

-- whether a parse error is the InvalidHeadingLevel variant
def isIHL : ParseError → Bool
  | .InvalidHeadingLevel _ _ _ => true
  | _ => false

-- Packaged postconditions used by the parser invariant proofs.
def InlGood (n : AstNode) : Prop :=
  isInline n = true ∧ wfNode n = true ∧ noEmptyList n = true

def InlGoodL (ns : List AstNode) : Prop := ∀ n ∈ ns, InlGood n

def BlkGood (n : AstNode) : Prop :=
  isBlock n = true ∧ wfNode n = true ∧ noEmptyList n = true

def ItemGood (n : AstNode) : Prop :=
  isListItemNode n = true ∧ wfNode n = true ∧ noEmptyList n = true

def ItemGoodL (ns : List AstNode) : Prop := ∀ n ∈ ns, ItemGood n

def CellGood (n : AstNode) : Prop := wfNode n = true ∧ noEmptyList n = true

def CellGoodL (ns : List AstNode) : Prop := ∀ n ∈ ns, CellGood n


-- The set of characters that Lexer::read_token dispatches on without
-- starting a text run (every non-default arm of the match, including
-- the digits); any other character begins a text run.
def specialStart (c : Char) : Bool :=
  c == '\n' || c == '\r' || isWsChar c || c == '#' || c == '*' || c == '`' ||
  c == '_' || c == '[' || c == ']' || c == '(' || c == ')' || c == '!' ||
  c == '>' || c == '-' || c == '.' || c == '|' || c == ':' || c.isDigit ||
  c == '~' || c == '+'

-- a character that begins or continues a plain text run
def plainChar (c : Char) : Bool := !specialStart c

-- a character allowed in a markup-free paragraph: plain text or a
-- space/tab
def plainOrWs (c : Char) : Bool := isWsChar c || plainChar c


-- Result-shape predicates for the parser invariant proofs.
def NodeRes (r : Except ParseError (AstNode × PState)) : Prop :=
  (∀ n s', r = .ok (n, s') → InlGood n) ∧ (∀ e, r = .error e → isIHL e = false)

def ListRes (r : Except ParseError (List AstNode × PState)) : Prop :=
  (∀ ns s', r = .ok (ns, s') → InlGoodL ns) ∧ (∀ e, r = .error e → isIHL e = false)

def PairRes (r : Except ParseError ((List AstNode × Bool) × PState)) : Prop :=
  (∀ out s', r = .ok (out, s') → InlGoodL out.1) ∧ (∀ e, r = .error e → isIHL e = false)

def ErrRes {α : Type} (r : Except ParseError (α × PState)) : Prop :=
  ∀ e, r = .error e → isIHL e = false


-- The inline node a plain paragraph token turns into (Text tokens keep
-- their run, a Whitespace token becomes a single-space Text node).
def tokNode : Token → AstNode
  | .Text r => .Text r
  | _ => .Text [' ']

-- The concatenated text carried by a plain token list (Text runs
-- verbatim, Whitespace as one space).
def flattenToks : List Token → List Char
  | [] => []
  | .Text r :: ts => r ++ flattenToks ts
  | .Whitespace :: ts => ' ' :: flattenToks ts
  | _ :: ts => flattenToks ts

-- ======================================================================
-- Theorems
-- ======================================================================

-- Case analysis on a successful pbind.
theorem pbind_some {α β : Type} {x : Option (Except ParseError (α × PState))}
    {f : α → PState → Option (Except ParseError β)} {r : Except ParseError β}
    (h : pbind x f = some r) :
    (∃ a s, x = some (.ok (a, s)) ∧ f a s = some r) ∨
    (∃ e, x = some (.error e) ∧ r = .error e) := by
  match hx : x with
  | none => simp [pbind, hx] at h
  | some (.error e) =>
    simp only [pbind, hx] at h
    exact .inr ⟨e, rfl, by injection h with h2; exact h2.symm⟩
  | some (.ok (a, s)) =>
    simp only [pbind, hx] at h
    exact .inl ⟨a, s, rfl, h⟩

-- C1 helpers: a successful emphasis parse with a count other than 1 or 2
-- returns the literal repeated-marker Text node (and drops the content).
theorem parseEmphasis_fallback (fuel count : Nat) (s : PState) (node : AstNode) (s2 : PState)
    (h1 : count ≠ 1) (h2 : count ≠ 2)
    (h : parseEmphasis fuel count s = some (.ok (node, s2))) :
    node = .Text (List.replicate count '*') := by
  match fuel with
  | 0 => simp [parseEmphasis] at h
  | fuel + 1 =>
    unfold parseEmphasis at h
    rcases pbind_some h with ⟨res, s', _, hf⟩ | ⟨e, _, hr⟩
    · by_cases hfound : res.2
      · rw [if_pos hfound] at hf
        match count, h1, h2 with
        | 0, _, _ => simp at hf; exact hf.1.symm
        | n + 3, _, _ => simp at hf; exact hf.1.symm
      · rw [if_neg hfound] at hf
        simp at hf
    · simp at hr

theorem parseUnderscore_fallback (fuel count : Nat) (s : PState) (node : AstNode) (s2 : PState)
    (h1 : count ≠ 1) (h2 : count ≠ 2)
    (h : parseUnderscoreEmphasis fuel count s = some (.ok (node, s2))) :
    node = .Text (List.replicate count '_') := by
  match fuel with
  | 0 => simp [parseUnderscoreEmphasis] at h
  | fuel + 1 =>
    unfold parseUnderscoreEmphasis at h
    rcases pbind_some h with ⟨res, s', _, hf⟩ | ⟨e, _, hr⟩
    · by_cases hfound : res.2
      · rw [if_pos hfound] at hf
        match count, h1, h2 with
        | 0, _, _ => simp at hf; exact hf.1.symm
        | n + 3, _, _ => simp at hf; exact hf.1.symm
      · rw [if_neg hfound] at hf
        simp at hf
    · simp at hr

/-- C1 counterexample: an Asterisk(3) run that is never closed before
end-of-input makes the emphasis parse fail with UnmatchedDelimiter; it
does not degrade to a literal Text node as the claim states. -/
theorem c1_counterexample :
    parseTokens 100 [.Asterisk 3, .Text ['a'], .Eof] =
      some (.error (.UnmatchedDelimiter '*' 1 3)) := rfl

/-- C1 (amended): a triple (or other non-1/2) marker run degrades to a
literal Text node of the repeated marker character only when an exactly
matching closing run is found before the next Newline or end-of-input;
without such a closing run the parse fails with UnmatchedDelimiter, just
as for counts 1 and 2. -/
theorem c1_emphasis_fallback_requires_closing :
    (∀ fuel count s node s2, count ≠ 1 → count ≠ 2 →
       parseEmphasis fuel count s = some (.ok (node, s2)) →
       node = .Text (List.replicate count '*')) ∧
    (∀ fuel count s node s2, count ≠ 1 → count ≠ 2 →
       parseUnderscoreEmphasis fuel count s = some (.ok (node, s2)) →
       node = .Text (List.replicate count '_')) ∧
    parseMarkdown 100 "***a***".toList =
      some (.ok (.Document [.Paragraph [.Text ['*', '*', '*']]])) ∧
    parseTokens 100 [.Underscore 3, .Text ['a'], .Eof] =
      some (.error (.UnmatchedDelimiter '_' 1 3)) :=
  ⟨fun fuel count s node s2 h1 h2 h => parseEmphasis_fallback fuel count s node s2 h1 h2 h,
   fun fuel count s node s2 h1 h2 h => parseUnderscore_fallback fuel count s node s2 h1 h2 h,
   rfl, rfl⟩

/-- C1 witness: the amended theorem applied at the concrete stream
Asterisk(3) Text "a" Asterisk(3) Eof, whose emphasis parse succeeds and
yields the literal `***` Text node. -/
theorem c1_witness :
    (3 ≠ 1 ∧ 3 ≠ 2) ∧ AstNode.Text ['*', '*', '*'] = .Text (List.replicate 3 '*') :=
  ⟨⟨by decide, by decide⟩,
   c1_emphasis_fallback_requires_closing.1 100 3
     ⟨[.Asterisk 3, .Text ['a'], .Asterisk 3, .Eof], 0, 1, 1⟩
     (.Text ['*', '*', '*'])
     ⟨[.Asterisk 3, .Text ['a'], .Asterisk 3, .Eof], 3, 1, 4⟩
     (by decide) (by decide) rfl⟩

/-- C2 counterexample: a directly constructed token stream starting with
Hash(0) parses successfully into a level-0 Heading; it does not fail
with InvalidHeadingLevel as the claim states for levels outside 1-6. -/
theorem c2_counterexample :
    parseTokens 100 [.Hash 0, .Text ['a'], .Eof] =
      some (.ok (.Document [.Heading 0 [.Text ['a']]])) := rfl

/-- C3 counterexample: the input "a.b" lexes to a single Text token that
contains a dot, because read_text does not stop at the dot. -/
theorem c3_counterexample :
    tokenize "a.b".toList = some (.ok [.Text ['a', '.', 'b'], .Eof]) ∧
    '.' ∈ ['a', '.', 'b'] :=
  ⟨rfl, by decide⟩

/-- C4: "*a*" parses to a Paragraph holding exactly one Italic node over
Text "a"; "**a**" to a Bold node over Text "a"; and the unclosed "*a"
fails with UnmatchedDelimiter carrying the delimiter character `*`. -/
theorem c4_delimiter_matching :
    parseMarkdown 100 "*a*".toList =
      some (.ok (.Document [.Paragraph [.Italic [.Text ['a']]]])) ∧
    parseMarkdown 100 "**a**".toList =
      some (.ok (.Document [.Paragraph [.Bold [.Text ['a']]]])) ∧
    parseMarkdown 100 "*a".toList = some (.error (.UnmatchedDelimiter '*' 1 3)) :=
  ⟨rfl, rfl, rfl⟩

/-- C8: "[text](http://example.com)" parses to a Link node with the url
exactly "http://example.com" and text [Text "text"]; "![alt](x.png)"
parses to an Image node with url "x.png"; and the link-or-image dispatch
is decided solely by whether the token before the opening bracket is an
Exclamation token. -/
theorem c8_link_image :
    parseMarkdown 100 "[text](http://example.com)".toList =
      some (.ok (.Document [.Paragraph
        [.Link [.Text "text".toList] "http://example.com".toList]])) ∧
    parseMarkdown 100 "![alt](x.png)".toList =
      some (.ok (.Document [.Paragraph
        [.Image [.Text "alt".toList] "x.png".toList]])) ∧
    (∀ fuel s, parseLinkOrImage (fuel + 1) s =
      if peekPrevious s = some .Exclamation then parseImage fuel s else parseLink fuel s) := by
  refine ⟨rfl, rfl, fun fuel s => ?_⟩
  cases hp : peekPrevious s with
  | none => simp [parseLinkOrImage, hp]
  | some t => cases t <;> simp [parseLinkOrImage, hp]

/-- C9 counterexample: for the input " a" (leading space, then plain
text) the Paragraph produced by parse_markdown has text_content "a",
while whitespace-collapsing the original input gives " a"; the claimed
equality fails because the block dispatcher skips leading whitespace. -/
theorem c9_counterexample :
    parseMarkdown 100 [' ', 'a'] =
      some (.ok (.Document [.Paragraph [.Text ['a']]])) ∧
    textContent (.Paragraph [.Text ['a']]) = ['a'] ∧
    specCollapseWhitespace [' ', 'a'] = [' ', 'a'] ∧
    (['a'] : List Char) ≠ [' ', 'a'] :=
  ⟨rfl, rfl, rfl, by decide⟩

-- Lexer progress lemmas: each token consumes at least one character.
theorem takeRun_snd_length (ch : Char) : ∀ cap cs, (takeRun ch cap cs).2.length ≤ cs.length := by
  intro cap
  induction cap with
  | zero => intro cs; simp [takeRun]
  | succ cap ih =>
    intro cs
    cases cs with
    | nil => simp [takeRun]
    | cons c cs =>
      by_cases h : (c == ch) = true
      · simp only [takeRun, h, if_true]
        exact le_trans (ih cs) (Nat.le_succ _)
      · simp [takeRun, h]

theorem takeRun_snd_le (ch c : Char) (cap : Nat) (cs : List Char)
    (hc : (c == ch) = true) (hcap : 1 ≤ cap) :
    (takeRun ch cap (c :: cs)).2.length ≤ cs.length := by
  match cap, hcap with
  | cap + 1, _ =>
    simp only [takeRun, hc, if_true]
    exact takeRun_snd_length ch cap cs


-- the length of dropWhile is at most the original length
theorem dropWhileLenLe {α : Type} (p : α → Bool) (l : List α) :
    (l.dropWhile p).length ≤ l.length := by
  induction l with
  | nil => simp
  | cons a l ih =>
    rw [List.dropWhile_cons]
    split
    · exact le_trans ih (Nat.le_succ _)
    · exact le_refl _

-- Every branch of read_token consumes at least one character (so the
-- remaining input is at most `cs`), and read_token never emits Eof.
theorem readToken_ok_facts (c : Char) (cs : List Char) (l col : Nat)
    (t : Token) (rest : List Char) (l' col' : Nat)
    (h : readToken c cs l col = .ok (t, rest, l', col')) :
    rest.length ≤ cs.length ∧ t ≠ .Eof := by
  delta readToken at h
  by_cases hc1 : (c == '\n') = true
  · rw [if_pos hc1] at h
    cases h
    exact ⟨le_refl _, by simp⟩
  · rw [if_neg hc1] at h
    by_cases hc2 : (c == '\r') = true
    · rw [if_pos hc2] at h
      cases cs with
      | nil =>
        cases h
        exact ⟨le_refl _, by simp⟩
      | cons c2 cs2 =>
        split at h
        · cases h
          rename_i heq
          injection heq with hh1 hh2
          subst hh2
          exact ⟨Nat.le_succ _, by simp⟩
        · cases h
          exact ⟨le_refl _, by simp⟩
    · rw [if_neg hc2] at h
      by_cases hc3 : isWsChar c = true
      · rw [if_pos hc3] at h
        cases h
        refine ⟨?_, by simp⟩
        rw [List.dropWhile_cons, if_pos hc3]
        exact dropWhileLenLe _ _
      · rw [if_neg hc3] at h
        by_cases hc4 : (c == '#') = true
        · rw [if_pos hc4] at h
          cases h
          exact ⟨takeRun_snd_le '#' c 6 cs hc4 (by decide), by simp⟩
        · rw [if_neg hc4] at h
          by_cases hc5 : (c == '*') = true
          · rw [if_pos hc5] at h
            cases h
            exact ⟨takeRun_snd_le '*' c 3 cs hc5 (by decide), by simp⟩
          · rw [if_neg hc5] at h
            by_cases hc6 : (c == '`') = true
            · rw [if_pos hc6] at h
              cases h
              exact ⟨takeRun_snd_le '`' c 4 cs hc6 (by decide), by simp⟩
            · rw [if_neg hc6] at h
              by_cases hc7 : (c == '_') = true
              · rw [if_pos hc7] at h
                cases h
                exact ⟨takeRun_snd_le '_' c 3 cs hc7 (by decide), by simp⟩
              · rw [if_neg hc7] at h
                by_cases hc8 : (c == '[') = true
                · rw [if_pos hc8] at h
                  cases h
                  exact ⟨le_refl _, by simp⟩
                · rw [if_neg hc8] at h
                  by_cases hc9 : (c == ']') = true
                  · rw [if_pos hc9] at h
                    cases h
                    exact ⟨le_refl _, by simp⟩
                  · rw [if_neg hc9] at h
                    by_cases hc10 : (c == '(') = true
                    · rw [if_pos hc10] at h
                      cases h
                      exact ⟨le_refl _, by simp⟩
                    · rw [if_neg hc10] at h
                      by_cases hc11 : (c == ')') = true
                      · rw [if_pos hc11] at h
                        cases h
                        exact ⟨le_refl _, by simp⟩
                      · rw [if_neg hc11] at h
                        by_cases hc12 : (c == '!') = true
                        · rw [if_pos hc12] at h
                          cases h
                          exact ⟨le_refl _, by simp⟩
                        · rw [if_neg hc12] at h
                          by_cases hc13 : (c == '>') = true
                          · rw [if_pos hc13] at h
                            cases h
                            exact ⟨le_refl _, by simp⟩
                          · rw [if_neg hc13] at h
                            by_cases hc14 : (c == '-') = true
                            · rw [if_pos hc14] at h
                              cases h
                              exact ⟨le_refl _, by simp⟩
                            · rw [if_neg hc14] at h
                              by_cases hc15 : (c == '.') = true
                              · rw [if_pos hc15] at h
                                cases h
                                exact ⟨le_refl _, by simp⟩
                              · rw [if_neg hc15] at h
                                by_cases hc16 : (c == '|') = true
                                · rw [if_pos hc16] at h
                                  cases h
                                  exact ⟨le_refl _, by simp⟩
                                · rw [if_neg hc16] at h
                                  by_cases hc17 : (c == ':') = true
                                  · rw [if_pos hc17] at h
                                    cases h
                                    exact ⟨le_refl _, by simp⟩
                                  · rw [if_neg hc17] at h
                                    by_cases hc18 : c.isDigit = true
                                    · rw [if_pos hc18] at h
                                      unfold readNumber at h
                                      split at h
                                      · cases h
                                        refine ⟨?_, by simp⟩
                                        rw [List.dropWhile_cons, if_pos hc18]
                                        exact dropWhileLenLe _ _
                                      · exact absurd h (by simp)
                                    · rw [if_neg hc18] at h
                                      by_cases hc19 : (c == '~') = true
                                      · rw [if_pos hc19] at h
                                        cases h
                                        exact ⟨takeRun_snd_le '~' c 3 cs hc19 (by decide), by simp⟩
                                      · rw [if_neg hc19] at h
                                        by_cases hc20 : (c == '+') = true
                                        · rw [if_pos hc20] at h
                                          cases h
                                          exact ⟨le_refl _, by simp⟩
                                        · rw [if_neg hc20] at h
                                          unfold readText at h
                                          split at h
                                          · cases h
                                            exact ⟨dropWhileLenLe _ _, by simp⟩
                                          · cases h
                                            exact ⟨dropWhileLenLe _ _, by simp⟩

-- read_token can only fail with NumberTooLarge (via read_number).
theorem readToken_error (c : Char) (cs : List Char) (l col : Nat) (e : LexerError)
    (h : readToken c cs l col = .error e) :
    ∃ v li c2, e = .NumberTooLarge v li c2 := by
  delta readToken at h
  by_cases hc1 : (c == '\n') = true
  · rw [if_pos hc1] at h
    exact absurd h (by simp)
  · rw [if_neg hc1] at h
    by_cases hc2 : (c == '\r') = true
    · rw [if_pos hc2] at h
      split at h <;> exact absurd h (by simp)
    · rw [if_neg hc2] at h
      by_cases hc3 : isWsChar c = true
      · rw [if_pos hc3] at h
        exact absurd h (by simp)
      · rw [if_neg hc3] at h
        by_cases hc4 : (c == '#') = true
        · rw [if_pos hc4] at h
          exact absurd h (by simp)
        · rw [if_neg hc4] at h
          by_cases hc5 : (c == '*') = true
          · rw [if_pos hc5] at h
            exact absurd h (by simp)
          · rw [if_neg hc5] at h
            by_cases hc6 : (c == '`') = true
            · rw [if_pos hc6] at h
              exact absurd h (by simp)
            · rw [if_neg hc6] at h
              by_cases hc7 : (c == '_') = true
              · rw [if_pos hc7] at h
                exact absurd h (by simp)
              · rw [if_neg hc7] at h
                by_cases hc8 : (c == '[') = true
                · rw [if_pos hc8] at h
                  exact absurd h (by simp)
                · rw [if_neg hc8] at h
                  by_cases hc9 : (c == ']') = true
                  · rw [if_pos hc9] at h
                    exact absurd h (by simp)
                  · rw [if_neg hc9] at h
                    by_cases hc10 : (c == '(') = true
                    · rw [if_pos hc10] at h
                      exact absurd h (by simp)
                    · rw [if_neg hc10] at h
                      by_cases hc11 : (c == ')') = true
                      · rw [if_pos hc11] at h
                        exact absurd h (by simp)
                      · rw [if_neg hc11] at h
                        by_cases hc12 : (c == '!') = true
                        · rw [if_pos hc12] at h
                          exact absurd h (by simp)
                        · rw [if_neg hc12] at h
                          by_cases hc13 : (c == '>') = true
                          · rw [if_pos hc13] at h
                            exact absurd h (by simp)
                          · rw [if_neg hc13] at h
                            by_cases hc14 : (c == '-') = true
                            · rw [if_pos hc14] at h
                              exact absurd h (by simp)
                            · rw [if_neg hc14] at h
                              by_cases hc15 : (c == '.') = true
                              · rw [if_pos hc15] at h
                                exact absurd h (by simp)
                              · rw [if_neg hc15] at h
                                by_cases hc16 : (c == '|') = true
                                · rw [if_pos hc16] at h
                                  exact absurd h (by simp)
                                · rw [if_neg hc16] at h
                                  by_cases hc17 : (c == ':') = true
                                  · rw [if_pos hc17] at h
                                    exact absurd h (by simp)
                                  · rw [if_neg hc17] at h
                                    by_cases hc18 : c.isDigit = true
                                    · rw [if_pos hc18] at h
                                      unfold readNumber at h
                                      split at h
                                      · exact absurd h (by simp)
                                      · exact ⟨_, _, _, by injection h with h2; exact h2.symm⟩
                                    · rw [if_neg hc18] at h
                                      by_cases hc19 : (c == '~') = true
                                      · rw [if_pos hc19] at h
                                        exact absurd h (by simp)
                                      · rw [if_neg hc19] at h
                                        by_cases hc20 : (c == '+') = true
                                        · rw [if_pos hc20] at h
                                          exact absurd h (by simp)
                                        · rw [if_neg hc20] at h
                                          unfold readText at h
                                          exact absurd h (by simp)

-- Tokenization facts: with fuel above the input length the lexer always
-- delivers a result, its only error is NumberTooLarge, and a successful
-- token list is some Eof-free prefix followed by exactly one Eof.
theorem tokenizeAux_facts : ∀ fuel cs l col, cs.length < fuel →
    (∃ r, tokenizeAux fuel cs l col = some r) ∧
    (∀ e, tokenizeAux fuel cs l col = some (.error e) →
       ∃ v li c2, e = .NumberTooLarge v li c2) ∧
    (∀ ts, tokenizeAux fuel cs l col = some (.ok ts) →
       ∃ ts0, ts = ts0 ++ [.Eof] ∧ .Eof ∉ ts0) := by
  intro fuel
  induction fuel with
  | zero => intro cs l col h; exact absurd h (Nat.not_lt_zero _)
  | succ fuel ih =>
    intro cs l col hlen
    cases cs with
    | nil =>
      refine ⟨⟨.ok [.Eof], rfl⟩, ?_, ?_⟩
      · intro e he; simp [tokenizeAux] at he
      · intro ts hts
        rw [show tokenizeAux (fuel + 1) ([] : List Char) l col = some (.ok [Token.Eof]) from rfl] at hts
        injection hts with h2
        injection h2 with h3
        exact ⟨[], by simp [← h3], by simp⟩
    | cons c cs2 =>
      cases hrt : readToken c cs2 l col with
      | error e =>
        refine ⟨⟨.error e, by simp [tokenizeAux, hrt]⟩, ?_, ?_⟩
        · intro e2 he2
          simp [tokenizeAux, hrt] at he2
          subst he2
          exact readToken_error c cs2 l col e hrt
        · intro ts hts
          simp [tokenizeAux, hrt] at hts
      | ok tup =>
        obtain ⟨t, rest, l', col'⟩ := tup
        obtain ⟨hrl, hne⟩ := readToken_ok_facts c cs2 l col t rest l' col' hrt
        have hlen2 : rest.length < fuel := by
          simp only [List.length_cons] at hlen
          omega
        obtain ⟨⟨r, hr⟩, herr, hok⟩ := ih rest l' col' hlen2
        cases r with
        | error e =>
          refine ⟨⟨.error e, by simp [tokenizeAux, hrt, hr]⟩, ?_, ?_⟩
          · intro e2 he2
            simp [tokenizeAux, hrt, hr] at he2
            subst he2
            exact herr e hr
          · intro ts hts
            simp [tokenizeAux, hrt, hr] at hts
        | ok ts1 =>
          refine ⟨⟨.ok (t :: ts1), by simp [tokenizeAux, hrt, hr]⟩, ?_, ?_⟩
          · intro e2 he2
            simp [tokenizeAux, hrt, hr] at he2
          · intro ts hts
            simp [tokenizeAux, hrt, hr] at hts
            obtain ⟨ts0, hts0, hnot⟩ := hok ts1 hr
            refine ⟨t :: ts0, ?_, ?_⟩
            · rw [← hts, hts0]; simp
            · intro hmem
              rcases List.mem_cons.mp hmem with h1 | h1
              · exact hne h1.symm
              · exact hnot h1

/-- C6: for every input string, tokenize delivers a result; its only
failure mode is NumberTooLarge (raised by read_number exactly when the
digit run exceeds the unsigned 32-bit range), and every success is a
token list whose one and only Eof token is the last element. -/
theorem c6_tokenize_eof :
    (∀ cs, tokenize cs ≠ none) ∧
    (∀ cs e, tokenize cs = some (.error e) → ∃ v li c2, e = .NumberTooLarge v li c2) ∧
    (∀ cs ts, tokenize cs = some (.ok ts) → ∃ ts0, ts = ts0 ++ [.Eof] ∧ .Eof ∉ ts0) ∧
    (∀ cs l col, (∃ e, readNumber cs l col = .error e) ↔
       u32Max < digitsVal (cs.takeWhile Char.isDigit)) := by
  refine ⟨?_, ?_, ?_, ?_⟩
  · intro cs hnone
    obtain ⟨⟨r, hr⟩, _, _⟩ := tokenizeAux_facts (cs.length + 1) cs 1 1 (Nat.lt_succ_self _)
    rw [tokenize, hr] at hnone
    exact Option.noConfusion hnone
  · intro cs e he
    obtain ⟨_, herr, _⟩ := tokenizeAux_facts (cs.length + 1) cs 1 1 (Nat.lt_succ_self _)
    exact herr e he
  · intro cs ts hts
    obtain ⟨_, _, hok⟩ := tokenizeAux_facts (cs.length + 1) cs 1 1 (Nat.lt_succ_self _)
    exact hok ts hts
  · intro cs l col
    constructor
    · rintro ⟨e, he⟩
      unfold readNumber at he
      split at he
      · exact absurd he (by simp)
      · omega
    · intro hgt
      refine ⟨.NumberTooLarge (String.mk (cs.takeWhile Char.isDigit)) l col, ?_⟩
      unfold readNumber
      rw [if_neg (by omega)]

/-- C6 witness: the theorem applied to the concrete inputs "10"
(success, exactly one trailing Eof) and "4294967296" (the u32 overflow
error). -/
theorem c6_witness :
    (∃ ts0, [Token.Number 10, Token.Eof] = ts0 ++ [Token.Eof] ∧ Token.Eof ∉ ts0) ∧
    (∃ v li c2,
       LexerError.NumberTooLarge "4294967296" 1 1 = .NumberTooLarge v li c2) :=
  ⟨c6_tokenize_eof.2.2.1 "10".toList [Token.Number 10, Token.Eof] rfl,
   c6_tokenize_eof.2.1 "4294967296".toList (.NumberTooLarge "4294967296" 1 1) rfl⟩

-- Parser::parse always yields a Document node on success.
theorem parseDocLoop_document : ∀ fuel children s d s2,
    parseDocLoop fuel children s = some (.ok (d, s2)) → ∃ cs, d = .Document cs := by
  intro fuel
  induction fuel with
  | zero => intro children s d s2 h; simp [parseDocLoop] at h
  | succ fuel ih =>
    intro children s d s2 h
    unfold parseDocLoop at h
    by_cases hend : isAtEnd s = true
    · rw [if_pos hend] at h
      have h2 : AstNode.Document children = d := by
        injection h with hh
        injection hh with hh2
        exact congrArg Prod.fst hh2
      exact ⟨children, h2.symm⟩
    · rw [if_neg hend] at h
      rcases pbind_some h with ⟨a, s', _, hf⟩ | ⟨e, _, hr⟩
      · exact ih _ _ _ _ hf
      · exact absurd hr (by simp)

theorem parseTokens_document (fuel : Nat) (ts : List Token) (d : AstNode)
    (h : parseTokens fuel ts = some (.ok d)) : ∃ cs, d = .Document cs := by
  unfold parseTokens at h
  split at h
  · exact absurd h (by simp)
  · exact absurd h (by simp)
  · rename_i d2 s2 hm
    cases h
    exact parseDocLoop_document fuel [] _ _ s2 hm

/-- C5: parse_markdown_or_default always returns a Document node (it is
total and never an error value); it returns the parsed document when
parse_markdown succeeds and the empty Document on any lexer or parser
error. -/
theorem c5_or_default_total :
    ∀ fuel cs,
      (∃ children, parseMarkdownOrDefault fuel cs = .Document children) ∧
      (∀ d, parseMarkdown fuel cs = some (.ok d) → parseMarkdownOrDefault fuel cs = d) ∧
      (∀ e, parseMarkdown fuel cs = some (.error e) →
         parseMarkdownOrDefault fuel cs = .Document []) := by
  intro fuel cs
  refine ⟨?_, ?_, ?_⟩
  · cases hm : parseMarkdown fuel cs with
    | none => exact ⟨[], by simp [parseMarkdownOrDefault, hm]⟩
    | some r =>
      cases r with
      | error e => exact ⟨[], by simp [parseMarkdownOrDefault, hm]⟩
      | ok d =>
        have hdoc : ∃ cs2, d = .Document cs2 := by
          unfold parseMarkdown at hm
          split at hm
          · exact absurd hm (by simp)
          · exact absurd hm (by simp [Except.error.injEq])
          · rename_i ts hserr
            exact parseTokens_document fuel ts d hm
        obtain ⟨cs2, rfl⟩ := hdoc
        exact ⟨cs2, by simp [parseMarkdownOrDefault, hm]⟩
  · intro d hd; simp [parseMarkdownOrDefault, hd]
  · intro e he; simp [parseMarkdownOrDefault, he]

/-- C5 witness: the overflow input "4294967296" makes parse_markdown
fail (with the converted lexer error), and the fallback entry point
returns the empty Document for it. -/
theorem c5_witness :
    parseMarkdown 100 "4294967296".toList =
      some (.error (.UnexpectedToken "valid number" "4294967296" 1 1)) ∧
    parseMarkdownOrDefault 100 "4294967296".toList = .Document [] :=
  ⟨rfl, (c5_or_default_total 100 "4294967296".toList).2.2 _ rfl⟩

-- Small facts about the Good predicates.
theorem InlGoodL_nil : InlGoodL [] := fun n h => absurd h (List.not_mem_nil n)

theorem InlGoodL_append {a b : List AstNode} (ha : InlGoodL a) (hb : InlGoodL b) :
    InlGoodL (a ++ b) := by
  intro n hn
  rcases List.mem_append.mp hn with h | h
  · exact ha n h
  · exact hb n h

theorem InlGoodL_singleton {n : AstNode} (h : InlGood n) : InlGoodL [n] := by
  intro m hm
  rcases List.mem_singleton.mp hm with rfl
  exact h

theorem wfList_of_good : ∀ {ns : List AstNode}, InlGoodL ns → wfList ns = true := by
  intro ns
  induction ns with
  | nil => intro _; rfl
  | cons n ns ih =>
    intro h
    have hn := h n (List.mem_cons_self n ns)
    have hns : InlGoodL ns := fun m hm => h m (List.mem_cons_of_mem n hm)
    simp [wfList, hn.2.1, ih hns]

theorem wfInlineList_of_good : ∀ {ns : List AstNode}, InlGoodL ns → wfInlineList ns = true := by
  intro ns
  induction ns with
  | nil => intro _; rfl
  | cons n ns ih =>
    intro h
    have hn := h n (List.mem_cons_self n ns)
    have hns : InlGoodL ns := fun m hm => h m (List.mem_cons_of_mem n hm)
    simp [wfInlineList, hn.1, hn.2.1, ih hns]

theorem nelAll_of_good : ∀ {ns : List AstNode}, InlGoodL ns → noEmptyListAll ns = true := by
  intro ns
  induction ns with
  | nil => intro _; rfl
  | cons n ns ih =>
    intro h
    have hn := h n (List.mem_cons_self n ns)
    have hns : InlGoodL ns := fun m hm => h m (List.mem_cons_of_mem n hm)
    simp [noEmptyListAll, hn.2.2, ih hns]

theorem InlGood_text (t : List Char) : InlGood (.Text t) :=
  ⟨rfl, rfl, rfl⟩

theorem InlGood_linebreak : InlGood .LineBreak := ⟨rfl, rfl, rfl⟩

theorem InlGood_inlineCode (c : List Char) : InlGood (.InlineCode c) := ⟨rfl, rfl, rfl⟩

theorem InlGood_italic {ns : List AstNode} (h : InlGoodL ns) : InlGood (.Italic ns) :=
  ⟨rfl, by simp [wfNode, wfList_of_good h], by simp [noEmptyList, nelAll_of_good h]⟩

theorem InlGood_bold {ns : List AstNode} (h : InlGoodL ns) : InlGood (.Bold ns) :=
  ⟨rfl, by simp [wfNode, wfList_of_good h], by simp [noEmptyList, nelAll_of_good h]⟩

theorem InlGood_strike {ns : List AstNode} (h : InlGoodL ns) : InlGood (.Strikethrough ns) :=
  ⟨rfl, by simp [wfNode, wfList_of_good h], by simp [noEmptyList, nelAll_of_good h]⟩

theorem InlGood_link {ns : List AstNode} (url : List Char) (h : InlGoodL ns) :
    InlGood (.Link ns url) :=
  ⟨rfl, by simp [wfNode, wfInlineList_of_good h], by simp [noEmptyList, nelAll_of_good h]⟩

theorem InlGood_image {ns : List AstNode} (url : List Char) (h : InlGoodL ns) :
    InlGood (.Image ns url) :=
  ⟨rfl, by simp [wfNode, wfInlineList_of_good h], by simp [noEmptyList, nelAll_of_good h]⟩

theorem NodeRes_ok {n : AstNode} {s' : PState} (h : InlGood n) : NodeRes (.ok (n, s')) := by
  constructor
  · intro n2 s2 hh
    injection hh with hh2
    cases hh2
    exact h
  · intro e hh
    exact absurd hh (by simp)

theorem NodeRes_err {e : ParseError} (h : isIHL e = false) : NodeRes (.error e) := by
  constructor
  · intro n2 s2 hh
    exact absurd hh (by simp)
  · intro e2 hh
    injection hh with hh2
    cases hh2
    exact h

theorem ListRes_ok {ns : List AstNode} {s' : PState} (h : InlGoodL ns) :
    ListRes (.ok (ns, s')) := by
  constructor
  · intro ns2 s2 hh
    injection hh with hh2
    cases hh2
    exact h
  · intro e hh
    exact absurd hh (by simp)

theorem ListRes_err {e : ParseError} (h : isIHL e = false) : ListRes (.error e) := by
  constructor
  · intro ns2 s2 hh
    exact absurd hh (by simp)
  · intro e2 hh
    injection hh with hh2
    cases hh2
    exact h

theorem PairRes_ok {out : List AstNode × Bool} {s' : PState} (h : InlGoodL out.1) :
    PairRes (.ok (out, s')) := by
  constructor
  · intro out2 s2 hh
    injection hh with hh2
    cases hh2
    exact h
  · intro e hh
    exact absurd hh (by simp)

theorem PairRes_err {e : ParseError} (h : isIHL e = false) : PairRes (.error e) := by
  constructor
  · intro out2 s2 hh
    exact absurd hh (by simp)
  · intro e2 hh
    injection hh with hh2
    cases hh2
    exact h

theorem ErrRes_ok {α : Type} {a : α} {s' : PState} : ErrRes (.ok (a, s')) := by
  intro e hh
  exact absurd hh (by simp)

theorem ErrRes_err {α : Type} {e : ParseError} (h : isIHL e = false) :
    ErrRes (α := α) (.error e) := by
  intro e2 hh
  injection hh with hh2
  cases hh2
  exact h

-- Master invariant for the inline-parsing family: every successfully
-- produced node is inline, well-formed, has no empty List descendants,
-- and no inline parse can raise InvalidHeadingLevel.
theorem inlineFamilyGood : ∀ fuel : Nat,
    (∀ s r, parseInlineContent fuel s = some r → ListRes r) ∧
    (∀ count content s r, emphasisLoop fuel count content s = some r →
       InlGoodL content → PairRes r) ∧
    (∀ count s r, parseEmphasis fuel count s = some r → NodeRes r) ∧
    (∀ count content s r, underscoreLoop fuel count content s = some r →
       InlGoodL content → PairRes r) ∧
    (∀ count s r, parseUnderscoreEmphasis fuel count s = some r → NodeRes r) ∧
    (∀ content s r, strikeLoop fuel content s = some r → InlGoodL content → PairRes r) ∧
    (∀ s r, parseStrikethrough fuel s = some r → NodeRes r) ∧
    (∀ code s r, inlineCodeLoop fuel code s = some r → ErrRes r) ∧
    (∀ s r, parseInlineCode fuel s = some r → NodeRes r) ∧
    (∀ text s r, linkTextLoop fuel text s = some r → InlGoodL text → ListRes r) ∧
    (∀ url s r, linkUrlLoop fuel url s = some r → ErrRes r) ∧
    (∀ s r, parseLink fuel s = some r → NodeRes r) ∧
    (∀ alt s r, imageAltLoop fuel alt s = some r → InlGoodL alt → ListRes r) ∧
    (∀ url s r, imageUrlLoop fuel url s = some r → ErrRes r) ∧
    (∀ s r, parseImage fuel s = some r → NodeRes r) ∧
    (∀ s r, parseLinkOrImage fuel s = some r → NodeRes r) ∧
    (∀ content s r, untilNewlineLoop fuel content s = some r →
       InlGoodL content → ListRes r) ∧
    (∀ content s r, tableCellLoop fuel content s = some r →
       InlGoodL content → ListRes r) := by
  intro fuel
  induction fuel with
  | zero =>
    refine ⟨?_, ?_, ?_, ?_, ?_, ?_, ?_, ?_, ?_, ?_, ?_, ?_, ?_, ?_, ?_, ?_, ?_, ?_⟩
    · intro s r h; simp [parseInlineContent] at h
    · intro count content s r h; simp [emphasisLoop] at h
    · intro count s r h; simp [parseEmphasis] at h
    · intro count content s r h; simp [underscoreLoop] at h
    · intro count s r h; simp [parseUnderscoreEmphasis] at h
    · intro content s r h; simp [strikeLoop] at h
    · intro s r h; simp [parseStrikethrough] at h
    · intro code s r h; simp [inlineCodeLoop] at h
    · intro s r h; simp [parseInlineCode] at h
    · intro text s r h; simp [linkTextLoop] at h
    · intro url s r h; simp [linkUrlLoop] at h
    · intro s r h; simp [parseLink] at h
    · intro alt s r h; simp [imageAltLoop] at h
    · intro url s r h; simp [imageUrlLoop] at h
    · intro s r h; simp [parseImage] at h
    · intro s r h; simp [parseLinkOrImage] at h
    · intro content s r h; simp [untilNewlineLoop] at h
    · intro content s r h; simp [tableCellLoop] at h
  | succ fuel ih =>
    obtain ⟨ihIC, ihEL, ihPE, ihUL, ihPU, ihSL, ihPS, ihICL, ihPIC, ihLTL,
            ihLUL, ihPL, ihIAL, ihIUL, ihPI, ihLOI, ihUNL, ihTCL⟩ := ih
    refine ⟨?_, ?_, ?_, ?_, ?_, ?_, ?_, ?_, ?_, ?_, ?_, ?_, ?_, ?_, ?_, ?_, ?_, ?_⟩
    · -- parse_inline_content
      intro s r h
      unfold parseInlineContent at h
      split at h
      · cases h; exact ListRes_ok (InlGoodL_singleton (InlGood_text _))
      · rcases pbind_some h with ⟨node, s', hx, hf⟩ | ⟨e, hx, rfl⟩
        · cases hf; exact ListRes_ok (InlGoodL_singleton ((ihPE _ _ _ hx).1 node s' rfl))
        · exact ListRes_err ((ihPE _ _ _ hx).2 e rfl)
      · rcases pbind_some h with ⟨node, s', hx, hf⟩ | ⟨e, hx, rfl⟩
        · cases hf; exact ListRes_ok (InlGoodL_singleton ((ihPU _ _ _ hx).1 node s' rfl))
        · exact ListRes_err ((ihPU _ _ _ hx).2 e rfl)
      · rcases pbind_some h with ⟨node, s', hx, hf⟩ | ⟨e, hx, rfl⟩
        · cases hf; exact ListRes_ok (InlGoodL_singleton ((ihLOI _ _ hx).1 node s' rfl))
        · exact ListRes_err ((ihLOI _ _ hx).2 e rfl)
      · rcases pbind_some h with ⟨node, s', hx, hf⟩ | ⟨e, hx, rfl⟩
        · cases hf; exact ListRes_ok (InlGoodL_singleton ((ihPIC _ _ hx).1 node s' rfl))
        · exact ListRes_err ((ihPIC _ _ hx).2 e rfl)
      · rcases pbind_some h with ⟨node, s', hx, hf⟩ | ⟨e, hx, rfl⟩
        · cases hf; exact ListRes_ok (InlGoodL_singleton ((ihPS _ _ hx).1 node s' rfl))
        · exact ListRes_err ((ihPS _ _ hx).2 e rfl)
      · cases h; exact ListRes_ok (InlGoodL_singleton (InlGood_text _))
      · cases h; exact ListRes_ok InlGoodL_nil
    · -- emphasis loop
      intro count content s r h hacc
      unfold emphasisLoop at h
      split at h
      · split at h
        · cases h; exact PairRes_ok hacc
        · rcases pbind_some h with ⟨ns, s', hx, hf⟩ | ⟨e, hx, rfl⟩
          · exact ihEL _ _ _ _ hf (InlGoodL_append hacc ((ihIC _ _ hx).1 ns s' rfl))
          · exact PairRes_err ((ihIC _ _ hx).2 e rfl)
      · cases h; exact PairRes_ok hacc
      · cases h; exact PairRes_ok hacc
      · cases h; exact PairRes_ok hacc
      · rcases pbind_some h with ⟨ns, s', hx, hf⟩ | ⟨e, hx, rfl⟩
        · exact ihEL _ _ _ _ hf (InlGoodL_append hacc ((ihIC _ _ hx).1 ns s' rfl))
        · exact PairRes_err ((ihIC _ _ hx).2 e rfl)
    · -- parse_emphasis
      intro count s r h
      unfold parseEmphasis at h
      rcases pbind_some h with ⟨res, s', hx, hf⟩ | ⟨e, hx, rfl⟩
      · have hres : InlGoodL res.1 := (ihEL _ _ _ _ hx InlGoodL_nil).1 res s' rfl
        by_cases hfound : res.2 = true
        · rw [if_pos hfound] at hf
          rcases count with _ | _ | _ | n
          · cases hf; exact NodeRes_ok (InlGood_text _)
          · cases hf; exact NodeRes_ok (InlGood_italic hres)
          · cases hf; exact NodeRes_ok (InlGood_bold hres)
          · cases hf; exact NodeRes_ok (InlGood_text _)
        · rw [if_neg hfound] at hf
          cases hf; exact NodeRes_err rfl
      · exact NodeRes_err ((ihEL _ _ _ _ hx InlGoodL_nil).2 e rfl)
    · -- underscore loop
      intro count content s r h hacc
      unfold underscoreLoop at h
      split at h
      · split at h
        · cases h; exact PairRes_ok hacc
        · rcases pbind_some h with ⟨ns, s', hx, hf⟩ | ⟨e, hx, rfl⟩
          · exact ihUL _ _ _ _ hf (InlGoodL_append hacc ((ihIC _ _ hx).1 ns s' rfl))
          · exact PairRes_err ((ihIC _ _ hx).2 e rfl)
      · cases h; exact PairRes_ok hacc
      · cases h; exact PairRes_ok hacc
      · cases h; exact PairRes_ok hacc
      · rcases pbind_some h with ⟨ns, s', hx, hf⟩ | ⟨e, hx, rfl⟩
        · exact ihUL _ _ _ _ hf (InlGoodL_append hacc ((ihIC _ _ hx).1 ns s' rfl))
        · exact PairRes_err ((ihIC _ _ hx).2 e rfl)
    · -- parse_underscore_emphasis
      intro count s r h
      unfold parseUnderscoreEmphasis at h
      rcases pbind_some h with ⟨res, s', hx, hf⟩ | ⟨e, hx, rfl⟩
      · have hres : InlGoodL res.1 := (ihUL _ _ _ _ hx InlGoodL_nil).1 res s' rfl
        by_cases hfound : res.2 = true
        · rw [if_pos hfound] at hf
          rcases count with _ | _ | _ | n
          · cases hf; exact NodeRes_ok (InlGood_text _)
          · cases hf; exact NodeRes_ok (InlGood_italic hres)
          · cases hf; exact NodeRes_ok (InlGood_bold hres)
          · cases hf; exact NodeRes_ok (InlGood_text _)
        · rw [if_neg hfound] at hf
          cases hf; exact NodeRes_err rfl
      · exact NodeRes_err ((ihUL _ _ _ _ hx InlGoodL_nil).2 e rfl)
    · -- strikethrough loop
      intro content s r h hacc
      unfold strikeLoop at h
      split at h
      · cases h; exact PairRes_ok hacc
      · cases h; exact PairRes_ok hacc
      · cases h; exact PairRes_ok hacc
      · cases h; exact PairRes_ok hacc
      · rcases pbind_some h with ⟨ns, s', hx, hf⟩ | ⟨e, hx, rfl⟩
        · exact ihSL _ _ _ hf (InlGoodL_append hacc ((ihIC _ _ hx).1 ns s' rfl))
        · exact PairRes_err ((ihIC _ _ hx).2 e rfl)
    · -- parse_strikethrough
      intro s r h
      unfold parseStrikethrough at h
      rcases pbind_some h with ⟨res, s', hx, hf⟩ | ⟨e, hx, rfl⟩
      · have hres : InlGoodL res.1 := (ihSL _ _ _ hx InlGoodL_nil).1 res s' rfl
        by_cases hfound : res.2 = true
        · rw [if_pos hfound] at hf
          cases hf; exact NodeRes_ok (InlGood_strike hres)
        · rw [if_neg hfound] at hf
          cases hf; exact NodeRes_err rfl
      · exact NodeRes_err ((ihSL _ _ _ hx InlGoodL_nil).2 e rfl)
    · -- inline code loop
      intro code s r h
      unfold inlineCodeLoop at h
      split at h
      · cases h; exact ErrRes_ok
      · exact ihICL _ _ _ h
      · exact ihICL _ _ _ h
      · cases h; exact ErrRes_ok
      · cases h; exact ErrRes_ok
      · cases h; exact ErrRes_ok
      · exact ihICL _ _ _ h
    · -- parse_inline_code
      intro s r h
      unfold parseInlineCode at h
      rcases pbind_some h with ⟨res, s', hx, hf⟩ | ⟨e, hx, rfl⟩
      · by_cases hfound : res.2 = true
        · rw [if_pos hfound] at hf
          cases hf; exact NodeRes_ok (InlGood_inlineCode _)
        · rw [if_neg hfound] at hf
          cases hf; exact NodeRes_err rfl
      · exact NodeRes_err (ihICL _ _ _ hx e rfl)
    · -- link text loop
      intro text s r h hacc
      unfold linkTextLoop at h
      split at h
      · cases h; exact ListRes_ok hacc
      · cases h; exact ListRes_err rfl
      · cases h; exact ListRes_ok hacc
      · rcases pbind_some h with ⟨ns, s', hx, hf⟩ | ⟨e, hx, rfl⟩
        · exact ihLTL _ _ _ hf (InlGoodL_append hacc ((ihIC _ _ hx).1 ns s' rfl))
        · exact ListRes_err ((ihIC _ _ hx).2 e rfl)
    · -- link URL loop
      intro url s r h
      unfold linkUrlLoop at h
      split at h
      · cases h; exact ErrRes_ok
      · exact ihLUL _ _ _ h
      · exact ihLUL _ _ _ h
      · cases h; exact ErrRes_err rfl
      · cases h; exact ErrRes_ok
      · exact ihLUL _ _ _ h
    · -- parse_link
      intro s r h
      unfold parseLink at h
      rcases pbind_some h with ⟨text, s2, hx, hf⟩ | ⟨e, hx, rfl⟩
      · have htext : InlGoodL text := (ihLTL _ _ _ hx InlGoodL_nil).1 text s2 rfl
        split at hf
        · rcases pbind_some hf with ⟨url, s3, hx2, hf2⟩ | ⟨e, hx2, rfl⟩
          · cases hf2; exact NodeRes_ok (InlGood_link _ htext)
          · exact NodeRes_err (ihLUL _ _ _ hx2 e rfl)
        · cases hf; exact NodeRes_err rfl
      · exact NodeRes_err ((ihLTL _ _ _ hx InlGoodL_nil).2 e rfl)
    · -- image alt loop
      intro alt s r h hacc
      unfold imageAltLoop at h
      split at h
      · cases h; exact ListRes_ok hacc
      · cases h; exact ListRes_err rfl
      · cases h; exact ListRes_ok hacc
      · rcases pbind_some h with ⟨ns, s', hx, hf⟩ | ⟨e, hx, rfl⟩
        · exact ihIAL _ _ _ hf (InlGoodL_append hacc ((ihIC _ _ hx).1 ns s' rfl))
        · exact ListRes_err ((ihIC _ _ hx).2 e rfl)
    · -- image URL loop
      intro url s r h
      unfold imageUrlLoop at h
      split at h
      · cases h; exact ErrRes_ok
      · exact ihIUL _ _ _ h
      · exact ihIUL _ _ _ h
      · cases h; exact ErrRes_err rfl
      · cases h; exact ErrRes_ok
      · exact ihIUL _ _ _ h
    · -- parse_image
      intro s r h
      unfold parseImage at h
      rcases pbind_some h with ⟨alt, s2, hx, hf⟩ | ⟨e, hx, rfl⟩
      · have halt : InlGoodL alt := (ihIAL _ _ _ hx InlGoodL_nil).1 alt s2 rfl
        split at hf
        · rcases pbind_some hf with ⟨url, s3, hx2, hf2⟩ | ⟨e, hx2, rfl⟩
          · cases hf2; exact NodeRes_ok (InlGood_image _ halt)
          · exact NodeRes_err (ihIUL _ _ _ hx2 e rfl)
        · cases hf; exact NodeRes_err rfl
      · exact NodeRes_err ((ihIAL _ _ _ hx InlGoodL_nil).2 e rfl)
    · -- parse_link_or_image
      intro s r h
      unfold parseLinkOrImage at h
      split at h
      · exact ihPI _ _ h
      · exact ihPL _ _ h
    · -- until-newline loop
      intro content s r h hacc
      unfold untilNewlineLoop at h
      split at h
      · cases h; exact ListRes_ok hacc
      · cases h; exact ListRes_ok hacc
      · cases h; exact ListRes_ok hacc
      · exact ihUNL _ _ _ h (InlGoodL_append hacc (InlGoodL_singleton (InlGood_text _)))
      · rcases pbind_some h with ⟨node, s', hx, hf⟩ | ⟨e, hx, rfl⟩
        · exact ihUNL _ _ _ hf
            (InlGoodL_append hacc (InlGoodL_singleton ((ihPE _ _ _ hx).1 node s' rfl)))
        · exact ListRes_err ((ihPE _ _ _ hx).2 e rfl)
      · rcases pbind_some h with ⟨node, s', hx, hf⟩ | ⟨e, hx, rfl⟩
        · exact ihUNL _ _ _ hf
            (InlGoodL_append hacc (InlGoodL_singleton ((ihPU _ _ _ hx).1 node s' rfl)))
        · exact ListRes_err ((ihPU _ _ _ hx).2 e rfl)
      · rcases pbind_some h with ⟨node, s', hx, hf⟩ | ⟨e, hx, rfl⟩
        · exact ihUNL _ _ _ hf
            (InlGoodL_append hacc (InlGoodL_singleton ((ihLOI _ _ hx).1 node s' rfl)))
        · exact ListRes_err ((ihLOI _ _ hx).2 e rfl)
      · rcases pbind_some h with ⟨node, s', hx, hf⟩ | ⟨e, hx, rfl⟩
        · exact ihUNL _ _ _ hf
            (InlGoodL_append hacc (InlGoodL_singleton ((ihPIC _ _ hx).1 node s' rfl)))
        · exact ListRes_err ((ihPIC _ _ hx).2 e rfl)
      · rcases pbind_some h with ⟨node, s', hx, hf⟩ | ⟨e, hx, rfl⟩
        · exact ihUNL _ _ _ hf
            (InlGoodL_append hacc (InlGoodL_singleton ((ihPS _ _ hx).1 node s' rfl)))
        · exact ListRes_err ((ihPS _ _ hx).2 e rfl)
      · exact ihUNL _ _ _ h (InlGoodL_append hacc (InlGoodL_singleton (InlGood_text _)))
      · exact ihUNL _ _ _ h hacc
    · -- table cell loop
      intro content s r h hacc
      unfold tableCellLoop at h
      split at h
      · cases h; exact ListRes_ok hacc
      · cases h; exact ListRes_ok hacc
      · cases h; exact ListRes_ok hacc
      · exact ihTCL _ _ _ h (InlGoodL_append hacc (InlGoodL_singleton (InlGood_text _)))
      · rcases pbind_some h with ⟨node, s', hx, hf⟩ | ⟨e, hx, rfl⟩
        · exact ihTCL _ _ _ hf
            (InlGoodL_append hacc (InlGoodL_singleton ((ihPE _ _ _ hx).1 node s' rfl)))
        · exact ListRes_err ((ihPE _ _ _ hx).2 e rfl)
      · rcases pbind_some h with ⟨node, s', hx, hf⟩ | ⟨e, hx, rfl⟩
        · exact ihTCL _ _ _ hf
            (InlGoodL_append hacc (InlGoodL_singleton ((ihLOI _ _ hx).1 node s' rfl)))
        · exact ListRes_err ((ihLOI _ _ hx).2 e rfl)
      · rcases pbind_some h with ⟨node, s', hx, hf⟩ | ⟨e, hx, rfl⟩
        · exact ihTCL _ _ _ hf
            (InlGoodL_append hacc (InlGoodL_singleton ((ihPIC _ _ hx).1 node s' rfl)))
        · exact ListRes_err ((ihPIC _ _ hx).2 e rfl)
      · exact ihTCL _ _ _ h hacc

-- Generic membership helpers.
theorem memAll_append {α : Type} {P : α → Prop} {a b : List α}
    (ha : ∀ c ∈ a, P c) (hb : ∀ c ∈ b, P c) : ∀ c ∈ a ++ b, P c := by
  intro c hc
  rcases List.mem_append.mp hc with h | h
  · exact ha c h
  · exact hb c h

theorem memAll_singleton {α : Type} {P : α → Prop} {x : α} (h : P x) :
    ∀ c ∈ [x], P c := by
  intro c hc
  rcases List.mem_singleton.mp hc with rfl
  exact h

theorem memAll_nil {α : Type} {P : α → Prop} : ∀ c ∈ ([] : List α), P c :=
  fun c hc => absurd hc (List.not_mem_nil c)

-- Folding membership facts into the Bool well-formedness functions.
theorem wfList_of_mem : ∀ {ns : List AstNode}, (∀ c ∈ ns, wfNode c = true) →
    wfList ns = true := by
  intro ns
  induction ns with
  | nil => intro _; rfl
  | cons n ns ih =>
    intro h
    simp [wfList, h n (List.mem_cons_self n ns),
          ih fun m hm => h m (List.mem_cons_of_mem n hm)]

theorem wfBlockList_of_mem : ∀ {ns : List AstNode},
    (∀ c ∈ ns, isBlock c = true ∧ wfNode c = true) → wfBlockList ns = true := by
  intro ns
  induction ns with
  | nil => intro _; rfl
  | cons n ns ih =>
    intro h
    have hn := h n (List.mem_cons_self n ns)
    simp [wfBlockList, hn.1, hn.2, ih fun m hm => h m (List.mem_cons_of_mem n hm)]

theorem wfListItemList_of_mem : ∀ {ns : List AstNode},
    (∀ c ∈ ns, isListItemNode c = true ∧ wfNode c = true) → wfListItemList ns = true := by
  intro ns
  induction ns with
  | nil => intro _; rfl
  | cons n ns ih =>
    intro h
    have hn := h n (List.mem_cons_self n ns)
    simp [wfListItemList, hn.1, hn.2, ih fun m hm => h m (List.mem_cons_of_mem n hm)]

theorem nelAll_of_mem : ∀ {ns : List AstNode}, (∀ c ∈ ns, noEmptyList c = true) →
    noEmptyListAll ns = true := by
  intro ns
  induction ns with
  | nil => intro _; rfl
  | cons n ns ih =>
    intro h
    simp [noEmptyListAll, h n (List.mem_cons_self n ns),
          ih fun m hm => h m (List.mem_cons_of_mem n hm)]

theorem wfRows_of_mem : ∀ {rows : List (List AstNode)},
    (∀ row ∈ rows, ∀ c ∈ row, wfNode c = true) → wfRows rows = true := by
  intro rows
  induction rows with
  | nil => intro _; rfl
  | cons row rows ih =>
    intro h
    simp [wfRows, wfList_of_mem (h row (List.mem_cons_self row rows)),
          ih fun r hr => h r (List.mem_cons_of_mem row hr)]

theorem nelRows_of_mem : ∀ {rows : List (List AstNode)},
    (∀ row ∈ rows, ∀ c ∈ row, noEmptyList c = true) → noEmptyListRows rows = true := by
  intro rows
  induction rows with
  | nil => intro _; rfl
  | cons row rows ih =>
    intro h
    simp [noEmptyListRows, nelAll_of_mem (h row (List.mem_cons_self row rows)),
          ih fun r hr => h r (List.mem_cons_of_mem row hr)]

-- Good-ness of the block constructors.
theorem BlkGood_paragraph {content : List AstNode} (h : InlGoodL content) :
    BlkGood (.Paragraph content) :=
  ⟨rfl, by simp [wfNode, wfInlineList_of_good h],
   by simp [noEmptyList, nelAll_of_good h]⟩

theorem BlkGood_heading (level : Nat) {content : List AstNode} (h : InlGoodL content) :
    BlkGood (.Heading level content) :=
  ⟨rfl, by simp [wfNode, wfInlineList_of_good h],
   by simp [noEmptyList, nelAll_of_good h]⟩

theorem BlkGood_blockquote {content : List AstNode} (h : InlGoodL content) :
    BlkGood (.BlockQuote content) :=
  ⟨rfl, by simp [wfNode, wfInlineList_of_good h],
   by simp [noEmptyList, nelAll_of_good h]⟩

theorem BlkGood_hrule : BlkGood .HorizontalRule := ⟨rfl, rfl, rfl⟩

theorem BlkGood_codeblock (lang : Option (List Char)) (code : List Char) :
    BlkGood (.CodeBlock lang code) := ⟨rfl, rfl, rfl⟩

theorem ItemGood_mk {content : List AstNode} (h : InlGoodL content) :
    ItemGood (.ListItem content) :=
  ⟨rfl, by simp [wfNode, wfInlineList_of_good h],
   by simp [noEmptyList, nelAll_of_good h]⟩

theorem BlkGood_list (ordered : Bool) {items : List AstNode}
    (h : ItemGoodL items) (hne : items ≠ []) : BlkGood (.List ordered items) := by
  refine ⟨rfl, ?_, ?_⟩
  · simp only [wfNode]
    exact wfListItemList_of_mem fun c hc => ⟨(h c hc).1, (h c hc).2.1⟩
  · simp only [noEmptyList]
    cases items with
    | nil => exact absurd rfl hne
    | cons n ns =>
      simp only [Bool.true_and]
      exact nelAll_of_mem fun c hc => (h c hc).2.2

theorem CellGood_mk {content : List AstNode} (h : InlGoodL content) :
    CellGood (.TableCell content) :=
  ⟨by simp [wfNode, wfList_of_good h], by simp [noEmptyList, nelAll_of_good h]⟩

theorem BlkGood_table {headers : List AstNode} {rows : List (List AstNode)}
    (hh : ∀ c ∈ headers, CellGood c) (hr : ∀ row ∈ rows, ∀ c ∈ row, CellGood c) :
    BlkGood (.Table headers rows) := by
  refine ⟨rfl, ?_, ?_⟩
  · simp only [wfNode, Bool.and_eq_true]
    exact ⟨wfList_of_mem fun c hc => (hh c hc).1,
           wfRows_of_mem fun row hrow c hc => (hr row hrow c hc).1⟩
  · simp only [noEmptyList, Bool.and_eq_true]
    exact ⟨nelAll_of_mem fun c hc => (hh c hc).2,
           nelRows_of_mem fun row hrow c hc => (hr row hrow c hc).2⟩

-- parse_heading on success yields a well-formed Heading block.
theorem parseHeading_good : ∀ fuel level s r, parseHeading fuel level s = some r →
    ∀ n s2, r = .ok (n, s2) → BlkGood n := by
  intro fuel level s r h n s2 hok
  subst hok
  match fuel with
  | 0 => simp [parseHeading] at h
  | fuel + 1 =>
    simp only [parseHeading] at h
    split at h
    · exact absurd h (by simp)
    · rcases pbind_some h with ⟨content, s', hx, hf⟩ | ⟨e, hx, hr⟩
      · have hc : InlGoodL content :=
          ((inlineFamilyGood fuel).2.2.2.2.2.2.2.2.2.2.2.2.2.2.2.2.1
            _ _ _ hx InlGoodL_nil).1 content s' rfl
        cases hf
        exact BlkGood_heading level hc
      · exact absurd hr (by simp)

-- parse_code_block on success yields a CodeBlock node.
theorem parseCodeBlock_shape : ∀ fuel fence s r, parseCodeBlock fuel fence s = some r →
    ∀ n s2, r = .ok (n, s2) → ∃ lang code, n = .CodeBlock lang code := by
  intro fuel fence s r h n s2 hok
  subst hok
  match fuel with
  | 0 => simp [parseCodeBlock] at h
  | fuel + 1 =>
    simp only [parseCodeBlock] at h
    split at h
    · exact absurd h (by simp)
    · split at h
      · exact absurd h (by simp)
      · rename_i code s5 heq2
        injection h with h2
        injection h2 with h3
        exact ⟨_, _, congrArg Prod.fst h3.symm⟩

-- parse_horizontal_rule on success yields the HorizontalRule node.
theorem parseHorizontalRule_shape : ∀ fuel s r, parseHorizontalRule fuel s = some r →
    ∀ n s2, r = .ok (n, s2) → n = .HorizontalRule := by
  intro fuel s r h n s2 hok
  subst hok
  match fuel with
  | 0 => simp [parseHorizontalRule] at h
  | fuel + 1 =>
    simp only [parseHorizontalRule] at h
    split at h
    · exact absurd h (by simp)
    · split at h
      · exact absurd h (by simp)
      · injection h with h2
        injection h2 with h3
        exact (congrArg Prod.fst h3).symm

-- Master invariant for the block-parsing family: every block produced
-- by a successful parse is well-formed (Document children are blocks,
-- block content sequences are inline, List items are ListItems) and
-- every produced List node has at least one item.
theorem blockFamilyGood : ∀ fuel : Nat,
    (∀ children s r, parseDocLoop fuel children s = some r →
       (∀ c ∈ children, BlkGood c) →
       ∀ d s2, r = .ok (d, s2) → wfNode d = true ∧ noEmptyList d = true) ∧
    (∀ s r, parseBlock fuel s = some r →
       ∀ nOpt s2, r = .ok (nOpt, s2) → ∀ n, nOpt = some n → BlkGood n) ∧
    (∀ s r, parseParagraph fuel s = some r → ∀ n s2, r = .ok (n, s2) → BlkGood n) ∧
    (∀ content s r, paragraphLoop fuel content s = some r → InlGoodL content →
       ∀ out s2, r = .ok (out, s2) → InlGoodL out) ∧
    (∀ s r, parseOrderedList fuel s = some r → ∀ n s2, r = .ok (n, s2) →
       ∃ items, n = .List true items ∧ ItemGoodL items ∧
         ((∃ k, currentToken s = some (.Number k)) → items ≠ [])) ∧
    (∀ items s r, orderedListLoop fuel items s = some r → ItemGoodL items →
       ∀ out s2, r = .ok (out, s2) → ItemGoodL out ∧ items.length ≤ out.length ∧
         ((∃ k, currentToken s = some (.Number k)) → items.length < out.length)) ∧
    (∀ s r, parseUnorderedList fuel s = some r → ∀ n s2, r = .ok (n, s2) →
       ∃ items, n = .List false items ∧ ItemGoodL items ∧
         ((currentToken s = some .Hyphen ∨ currentToken s = some .Plus) →
           items ≠ [])) ∧
    (∀ items s r, unorderedListLoop fuel items s = some r → ItemGoodL items →
       ∀ out s2, r = .ok (out, s2) → ItemGoodL out ∧ items.length ≤ out.length ∧
         ((currentToken s = some .Hyphen ∨ currentToken s = some .Plus) →
           items.length < out.length)) ∧
    (∀ s r, parseBlockquote fuel s = some r → ∀ n s2, r = .ok (n, s2) → BlkGood n) ∧
    (∀ content s r, blockquoteLoop fuel content s = some r → InlGoodL content →
       ∀ out s2, r = .ok (out, s2) → InlGoodL out) ∧
    (∀ s r, parseTable fuel s = some r → ∀ n s2, r = .ok (n, s2) → BlkGood n) ∧
    (∀ cells s r, tableCellsRowLoop fuel cells s = some r →
       (∀ c ∈ cells, CellGood c) →
       ∀ out s2, r = .ok (out, s2) → ∀ c ∈ out, CellGood c) ∧
    (∀ rows s r, tableRowsLoop fuel rows s = some r →
       (∀ row ∈ rows, ∀ c ∈ row, CellGood c) →
       ∀ out s2, r = .ok (out, s2) → ∀ row ∈ out, ∀ c ∈ row, CellGood c) := by
  intro fuel
  induction fuel with
  | zero =>
    refine ⟨?_, ?_, ?_, ?_, ?_, ?_, ?_, ?_, ?_, ?_, ?_, ?_, ?_⟩
    · intro children s r h; simp [parseDocLoop] at h
    · intro s r h; simp [parseBlock] at h
    · intro s r h; simp [parseParagraph] at h
    · intro content s r h; simp [paragraphLoop] at h
    · intro s r h; simp [parseOrderedList] at h
    · intro items s r h; simp [orderedListLoop] at h
    · intro s r h; simp [parseUnorderedList] at h
    · intro items s r h; simp [unorderedListLoop] at h
    · intro s r h; simp [parseBlockquote] at h
    · intro content s r h; simp [blockquoteLoop] at h
    · intro s r h; simp [parseTable] at h
    · intro cells s r h; simp [tableCellsRowLoop] at h
    · intro rows s r h; simp [tableRowsLoop] at h
  | succ fuel ih =>
    obtain ⟨ihDL, ihB, ihPP, ihPL2, ihOL, ihOLL, ihUO, ihULL, ihBQ, ihBQL,
            ihT, ihTCR, ihTRL⟩ := ih
    have hIC := (inlineFamilyGood fuel).1
    have hUNL := (inlineFamilyGood fuel).2.2.2.2.2.2.2.2.2.2.2.2.2.2.2.2.1
    have hTCL := (inlineFamilyGood fuel).2.2.2.2.2.2.2.2.2.2.2.2.2.2.2.2.2
    refine ⟨?_, ?_, ?_, ?_, ?_, ?_, ?_, ?_, ?_, ?_, ?_, ?_, ?_⟩
    · -- parse (document loop)
      intro children s r h hacc d s2 hok
      subst hok
      unfold parseDocLoop at h
      split at h
      · cases h
        constructor
        · simp only [wfNode]
          exact wfBlockList_of_mem fun c hc => ⟨(hacc c hc).1, (hacc c hc).2.1⟩
        · simp only [noEmptyList]
          exact nelAll_of_mem fun c hc => (hacc c hc).2.2
      · rcases pbind_some h with ⟨nodeOpt, s', hx, hf⟩ | ⟨e, hx, hr⟩
        · refine ihDL _ _ _ hf ?_ d s2 rfl
          refine memAll_append hacc ?_
          cases nodeOpt with
          | none => exact memAll_nil
          | some n1 => exact memAll_singleton (ihB _ _ hx (some n1) s' rfl n1 rfl)
        · exact absurd hr (by simp)
    · -- parse_block
      intro s0 r h nOpt s2 hok
      subst hok
      simp only [parseBlock] at h
      split at h
      · -- Hash
        rcases pbind_some h with ⟨n1, s', hx, hf⟩ | ⟨e, hx, hr⟩
        · cases hf
          intro n hn
          injection hn with hn2
          subst hn2
          exact parseHeading_good _ _ _ _ hx _ _ rfl
        · exact absurd hr (by simp)
      · -- Number
        rename_i k heq
        rcases pbind_some h with ⟨n1, s', hx, hf⟩ | ⟨e, hx, hr⟩
        · cases hf
          intro n hn
          injection hn with hn2
          subst hn2
          obtain ⟨items, rfl, hitems, hne⟩ := ihOL _ _ hx _ _ rfl
          exact BlkGood_list true hitems (hne ⟨k, heq⟩)
        · exact absurd hr (by simp)
      · -- Hyphen
        rename_i heq
        split at h
        · rcases pbind_some h with ⟨n1, s', hx, hf⟩ | ⟨e, hx, hr⟩
          · cases hf
            intro n hn
            injection hn with hn2
            subst hn2
            have hsh := parseHorizontalRule_shape _ _ _ hx _ _ rfl
            subst hsh
            exact BlkGood_hrule
          · exact absurd hr (by simp)
        · rcases pbind_some h with ⟨n1, s', hx, hf⟩ | ⟨e, hx, hr⟩
          · cases hf
            intro n hn
            injection hn with hn2
            subst hn2
            obtain ⟨items, rfl, hitems, hne⟩ := ihUO _ _ hx _ _ rfl
            exact BlkGood_list false hitems (hne (.inl heq))
          · exact absurd hr (by simp)
      · -- Plus
        rename_i heq
        rcases pbind_some h with ⟨n1, s', hx, hf⟩ | ⟨e, hx, hr⟩
        · cases hf
          intro n hn
          injection hn with hn2
          subst hn2
          obtain ⟨items, rfl, hitems, hne⟩ := ihUO _ _ hx _ _ rfl
          exact BlkGood_list false hitems (hne (.inr heq))
        · exact absurd hr (by simp)
      · -- GreaterThan
        rcases pbind_some h with ⟨n1, s', hx, hf⟩ | ⟨e, hx, hr⟩
        · cases hf
          intro n hn
          injection hn with hn2
          subst hn2
          exact ihBQ _ _ hx _ _ rfl
        · exact absurd hr (by simp)
      · -- Backtick
        split at h
        · rcases pbind_some h with ⟨n1, s', hx, hf⟩ | ⟨e, hx, hr⟩
          · cases hf
            intro n hn
            injection hn with hn2
            subst hn2
            obtain ⟨lang, code, rfl⟩ := parseCodeBlock_shape _ _ _ _ hx _ _ rfl
            exact BlkGood_codeblock lang code
          · exact absurd hr (by simp)
        · rcases pbind_some h with ⟨n1, s', hx, hf⟩ | ⟨e, hx, hr⟩
          · cases hf
            intro n hn
            injection hn with hn2
            subst hn2
            exact ihPP _ _ hx _ _ rfl
          · exact absurd hr (by simp)
      · -- Pipe
        rcases pbind_some h with ⟨n1, s', hx, hf⟩ | ⟨e, hx, hr⟩
        · cases hf
          intro n hn
          injection hn with hn2
          subst hn2
          exact ihT _ _ hx _ _ rfl
        · exact absurd hr (by simp)
      · -- Newline
        cases h
        intro n hn
        exact absurd hn (by simp)
      · -- some other token
        rcases pbind_some h with ⟨n1, s', hx, hf⟩ | ⟨e, hx, hr⟩
        · cases hf
          intro n hn
          injection hn with hn2
          subst hn2
          exact ihPP _ _ hx _ _ rfl
        · exact absurd hr (by simp)
      · -- none
        cases h
        intro n hn
        exact absurd hn (by simp)
    · -- parse_paragraph
      intro s r h n s2 hok
      subst hok
      simp only [parseParagraph] at h
      rcases pbind_some h with ⟨content, s', hx, hf⟩ | ⟨e, hx, hr⟩
      · cases hf
        exact BlkGood_paragraph (ihPL2 _ _ _ hx InlGoodL_nil _ _ rfl)
      · exact absurd hr (by simp)
    · -- paragraph loop
      intro content s r h hacc out s2 hok
      subst hok
      unfold paragraphLoop at h
      split at h
      · split at h
        · cases h; exact hacc
        · exact ihPL2 _ _ _ h
            (InlGoodL_append hacc (InlGoodL_singleton InlGood_linebreak)) _ _ rfl
      · cases h; exact hacc
      · cases h; exact hacc
      · rcases pbind_some h with ⟨ns, s', hx, hf⟩ | ⟨e, hx, hr⟩
        · exact ihPL2 _ _ _ hf
            (InlGoodL_append hacc ((hIC _ _ hx).1 ns s' rfl)) _ _ rfl
        · exact absurd hr (by simp)
    · -- parse_ordered_list
      intro s r h n s2 hok
      subst hok
      simp only [parseOrderedList] at h
      rcases pbind_some h with ⟨items, s', hx, hf⟩ | ⟨e, hx, hr⟩
      · cases hf
        obtain ⟨hgood, hlen, hcond⟩ := ihOLL _ _ _ hx memAll_nil _ _ rfl
        refine ⟨items, rfl, hgood, fun hk => ?_⟩
        have hpos := hcond hk
        simp only [List.length_nil] at hpos
        exact List.length_pos.mp hpos
      · exact absurd hr (by simp)
    · -- ordered list loop
      intro items s r h hacc out s2 hok
      subst hok
      simp only [orderedListLoop] at h
      split at h
      · split at h
        · rcases pbind_some h with ⟨content, s3, hx, hf⟩ | ⟨e, hx, hr⟩
          · have hcont : InlGoodL content := (hUNL _ _ _ hx InlGoodL_nil).1 content s3 rfl
            obtain ⟨hgood, hlen, _⟩ := ihOLL _ _ _ hf
              (memAll_append hacc (memAll_singleton (ItemGood_mk hcont))) _ _ rfl
            refine ⟨hgood, ?_, fun _ => ?_⟩
            · refine le_trans ?_ hlen
              simp
            · refine lt_of_lt_of_le ?_ hlen
              simp
          · exact absurd hr (by simp)
        · exact absurd h (by simp)
      · rename_i hne
        cases h
        refine ⟨hacc, le_refl _, ?_⟩
        rintro ⟨k, hk⟩
        exact absurd hk (hne k)
    · -- parse_unordered_list
      intro s r h n s2 hok
      subst hok
      simp only [parseUnorderedList] at h
      rcases pbind_some h with ⟨items, s', hx, hf⟩ | ⟨e, hx, hr⟩
      · cases hf
        obtain ⟨hgood, hlen, hcond⟩ := ihULL _ _ _ hx memAll_nil _ _ rfl
        refine ⟨items, rfl, hgood, fun hk => ?_⟩
        have hpos := hcond hk
        simp only [List.length_nil] at hpos
        exact List.length_pos.mp hpos
      · exact absurd hr (by simp)
    · -- unordered list loop
      intro items s r h hacc out s2 hok
      subst hok
      simp only [unorderedListLoop] at h
      split at h
      · rcases pbind_some h with ⟨content, s3, hx, hf⟩ | ⟨e, hx, hr⟩
        · have hcont : InlGoodL content := (hUNL _ _ _ hx InlGoodL_nil).1 content s3 rfl
          obtain ⟨hgood, hlen, _⟩ := ihULL _ _ _ hf
            (memAll_append hacc (memAll_singleton (ItemGood_mk hcont))) _ _ rfl
          refine ⟨hgood, ?_, fun _ => ?_⟩
          · refine le_trans ?_ hlen
            simp
          · refine lt_of_lt_of_le ?_ hlen
            simp
        · exact absurd hr (by simp)
      · rcases pbind_some h with ⟨content, s3, hx, hf⟩ | ⟨e, hx, hr⟩
        · have hcont : InlGoodL content := (hUNL _ _ _ hx InlGoodL_nil).1 content s3 rfl
          obtain ⟨hgood, hlen, _⟩ := ihULL _ _ _ hf
            (memAll_append hacc (memAll_singleton (ItemGood_mk hcont))) _ _ rfl
          refine ⟨hgood, ?_, fun _ => ?_⟩
          · refine le_trans ?_ hlen
            simp
          · refine lt_of_lt_of_le ?_ hlen
            simp
        · exact absurd hr (by simp)
      · rename_i hne1 hne2
        cases h
        refine ⟨hacc, le_refl _, ?_⟩
        rintro (hk | hk)
        · exact absurd hk hne1
        · exact absurd hk hne2
    · -- parse_blockquote
      intro s r h n s2 hok
      subst hok
      simp only [parseBlockquote] at h
      rcases pbind_some h with ⟨content, s', hx, hf⟩ | ⟨e, hx, hr⟩
      · cases hf
        exact BlkGood_blockquote (ihBQL _ _ _ hx InlGoodL_nil _ _ rfl)
      · exact absurd hr (by simp)
    · -- blockquote loop
      intro content s r h hacc out s2 hok
      subst hok
      simp only [blockquoteLoop] at h
      split at h
      · rcases pbind_some h with ⟨lineContent, s3, hx, hf⟩ | ⟨e, hx, hr⟩
        · exact ihBQL _ _ _ hf
            (InlGoodL_append hacc ((hUNL _ _ _ hx InlGoodL_nil).1 lineContent s3 rfl)) _ _ rfl
        · exact absurd hr (by simp)
      · cases h; exact hacc
    · -- parse_table
      intro s r h n s2 hok
      subst hok
      simp only [parseTable] at h
      rcases pbind_some h with ⟨headers, s2', hx, hf⟩ | ⟨e, hx, hr⟩
      · have hheaders : ∀ c ∈ headers, CellGood c := by
          split at hx
          · exact ihTCR _ _ _ hx memAll_nil _ _ rfl
          · cases hx
            exact memAll_nil
        split at hf
        · exact absurd hf (by simp)
        · rcases pbind_some hf with ⟨rows, s6, hx2, hf2⟩ | ⟨e2, hx2, hr2⟩
          · cases hf2
            exact BlkGood_table hheaders
              (ihTRL _ _ _ hx2 (fun row hrw => absurd hrw (List.not_mem_nil row)) _ _ rfl)
          · exact absurd hr2 (by simp)
      · exact absurd hr (by simp)
    · -- table header/data cell row loop
      intro cells s r h hacc out s2 hok
      subst hok
      unfold tableCellsRowLoop at h
      split at h
      · cases h; exact hacc
      · cases h; exact hacc
      · exact ihTCR _ _ _ h hacc _ _ rfl
      · rcases pbind_some h with ⟨content, s', hx, hf⟩ | ⟨e, hx, hr⟩
        · exact ihTCR _ _ _ hf
            (memAll_append hacc
              (memAll_singleton (CellGood_mk ((hTCL _ _ _ hx InlGoodL_nil).1 content s' rfl)))) _ _ rfl
        · exact absurd hr (by simp)
    · -- table rows loop
      intro rows s r h hacc out s2 hok
      subst hok
      simp only [tableRowsLoop] at h
      split at h
      · rcases pbind_some h with ⟨rowCells, s2', hx, hf⟩ | ⟨e, hx, hr⟩
        · exact ihTRL _ _ _ hf
            (memAll_append hacc (memAll_singleton (ihTCR _ _ _ hx memAll_nil _ _ rfl))) _ _ rfl
        · exact absurd hr (by simp)
      · cases h; exact hacc

/-- C7: every tree produced by a successful Parser::parse is
well-formed: the Document children are block nodes, the content
sequences of Heading, Paragraph, ListItem and BlockQuote and the Link
text / Image alt sequences hold only inline nodes, and every List's
items are ListItem nodes (checked recursively over the whole tree by
wfNode). -/
theorem c7_parse_wellformed : ∀ fuel ts d,
    parseTokens fuel ts = some (.ok d) → wfNode d = true := by
  intro fuel ts d h
  unfold parseTokens at h
  split at h
  · exact absurd h (by simp)
  · exact absurd h (by simp)
  · rename_i d2 s2 hm
    cases h
    exact ((blockFamilyGood fuel).1 [] _ _ hm memAll_nil _ s2 rfl).1

/-- C7 witness: the theorem applied to the stream of "# a", whose parse
produces a Document with one Heading block over inline Text. -/
theorem c7_witness :
    wfNode (.Document [.Heading 1 [.Text ['a']]]) = true :=
  c7_parse_wellformed 100 [.Hash 1, .Whitespace, .Text ['a'], .Eof]
    (.Document [.Heading 1 [.Text ['a']]]) rfl

/-- C10: every List node anywhere in a tree produced by a successful
Parser::parse has at least one item; the list parsers are entered only
on a list-marker token, so their first iteration contributes an item. -/
theorem c10_no_empty_list : ∀ fuel ts d,
    parseTokens fuel ts = some (.ok d) → noEmptyList d = true := by
  intro fuel ts d h
  unfold parseTokens at h
  split at h
  · exact absurd h (by simp)
  · exact absurd h (by simp)
  · rename_i d2 s2 hm
    cases h
    exact ((blockFamilyGood fuel).1 [] _ _ hm memAll_nil _ s2 rfl).2

/-- C10 witness: the theorem applied to the stream of "1. a", whose
parse produces one ordered List with one ListItem. -/
theorem c10_witness :
    noEmptyList (.Document [.List true [.ListItem [.Text ['a']]]]) = true :=
  c10_no_empty_list 100 [.Number 1, .Dot, .Whitespace, .Text ['a'], .Eof]
    (.Document [.List true [.ListItem [.Text ['a']]]]) rfl

/-- C2 (amended): parse_heading raises InvalidHeadingLevel exactly for
levels greater than 6; a directly constructed Hash(7) stream fails with
InvalidHeadingLevel, while Hash(0) is accepted (the code checks only
the upper bound) and produces a level-0 Heading. -/
theorem c2_invalid_heading_level_iff_gt6 :
    (∀ fuel level s, 6 < level →
       parseHeading (fuel + 1) level s =
         some (.error (.InvalidHeadingLevel level s.line s.column))) ∧
    (∀ fuel level s r, level ≤ 6 → parseHeading fuel level s = some r →
       ∀ l ln c, r ≠ .error (.InvalidHeadingLevel l ln c)) ∧
    parseTokens 100 [.Hash 7, .Text ['a'], .Eof] =
      some (.error (.InvalidHeadingLevel 7 1 1)) := by
  refine ⟨?_, ?_, rfl⟩
  · intro fuel level s h
    simp only [parseHeading]
    rw [if_pos h]
  · intro fuel level s r hle h l ln c hcontra
    subst hcontra
    match fuel with
    | 0 => simp [parseHeading] at h
    | fuel + 1 =>
      simp only [parseHeading] at h
      rw [if_neg (by omega)] at h
      rcases pbind_some h with ⟨content, s', hx, hf⟩ | ⟨e, hx, hr⟩
      · exact absurd hf (by simp)
      · have hihl : isIHL e = false :=
          ((inlineFamilyGood fuel).2.2.2.2.2.2.2.2.2.2.2.2.2.2.2.2.1
            _ _ _ hx InlGoodL_nil).2 e rfl
        injection hr with hr2
        rw [← hr2] at hihl
        simp [isIHL] at hihl

/-- C2 witness: the amended theorem applied at level 7 with a concrete
state, producing the InvalidHeadingLevel error at line 1, column 1. -/
theorem c2_witness :
    parseHeading 1 7 ⟨[.Hash 7], 0, 1, 1⟩ =
      some (.error (.InvalidHeadingLevel 7 1 1)) :=
  c2_invalid_heading_level_iff_gt6.1 0 7 ⟨[.Hash 7], 0, 1, 1⟩ (by decide)

-- A Text token produced by read_token never contains a character of the
-- read_text stop set.
theorem readToken_text_chars (c : Char) (cs : List Char) (l col : Nat)
    (t : Token) (rest : List Char) (l' col' : Nat) (r : List Char)
    (h : readToken c cs l col = .ok (t, rest, l', col')) (ht : t = .Text r) :
    ∀ c2 ∈ r, textStop c2 = false := by
  delta readToken at h
  by_cases hc1 : (c == '\n') = true
  · rw [if_pos hc1] at h
    cases h
    exact absurd ht (by simp)
  · rw [if_neg hc1] at h
    by_cases hc2 : (c == '\r') = true
    · rw [if_pos hc2] at h
      split at h <;> (cases h; exact absurd ht (by simp))
    · rw [if_neg hc2] at h
      by_cases hc3 : isWsChar c = true
      · rw [if_pos hc3] at h
        cases h
        exact absurd ht (by simp)
      · rw [if_neg hc3] at h
        by_cases hc4 : (c == '#') = true
        · rw [if_pos hc4] at h
          cases h
          exact absurd ht (by simp)
        · rw [if_neg hc4] at h
          by_cases hc5 : (c == '*') = true
          · rw [if_pos hc5] at h
            cases h
            exact absurd ht (by simp)
          · rw [if_neg hc5] at h
            by_cases hc6 : (c == '`') = true
            · rw [if_pos hc6] at h
              cases h
              exact absurd ht (by simp)
            · rw [if_neg hc6] at h
              by_cases hc7 : (c == '_') = true
              · rw [if_pos hc7] at h
                cases h
                exact absurd ht (by simp)
              · rw [if_neg hc7] at h
                by_cases hc8 : (c == '[') = true
                · rw [if_pos hc8] at h
                  cases h
                  exact absurd ht (by simp)
                · rw [if_neg hc8] at h
                  by_cases hc9 : (c == ']') = true
                  · rw [if_pos hc9] at h
                    cases h
                    exact absurd ht (by simp)
                  · rw [if_neg hc9] at h
                    by_cases hc10 : (c == '(') = true
                    · rw [if_pos hc10] at h
                      cases h
                      exact absurd ht (by simp)
                    · rw [if_neg hc10] at h
                      by_cases hc11 : (c == ')') = true
                      · rw [if_pos hc11] at h
                        cases h
                        exact absurd ht (by simp)
                      · rw [if_neg hc11] at h
                        by_cases hc12 : (c == '!') = true
                        · rw [if_pos hc12] at h
                          cases h
                          exact absurd ht (by simp)
                        · rw [if_neg hc12] at h
                          by_cases hc13 : (c == '>') = true
                          · rw [if_pos hc13] at h
                            cases h
                            exact absurd ht (by simp)
                          · rw [if_neg hc13] at h
                            by_cases hc14 : (c == '-') = true
                            · rw [if_pos hc14] at h
                              cases h
                              exact absurd ht (by simp)
                            · rw [if_neg hc14] at h
                              by_cases hc15 : (c == '.') = true
                              · rw [if_pos hc15] at h
                                cases h
                                exact absurd ht (by simp)
                              · rw [if_neg hc15] at h
                                by_cases hc16 : (c == '|') = true
                                · rw [if_pos hc16] at h
                                  cases h
                                  exact absurd ht (by simp)
                                · rw [if_neg hc16] at h
                                  by_cases hc17 : (c == ':') = true
                                  · rw [if_pos hc17] at h
                                    cases h
                                    exact absurd ht (by simp)
                                  · rw [if_neg hc17] at h
                                    by_cases hc18 : c.isDigit = true
                                    · rw [if_pos hc18] at h
                                      unfold readNumber at h
                                      split at h
                                      · cases h
                                        exact absurd ht (by simp)
                                      · exact absurd h (by simp)
                                    · rw [if_neg hc18] at h
                                      by_cases hc19 : (c == '~') = true
                                      · rw [if_pos hc19] at h
                                        cases h
                                        exact absurd ht (by simp)
                                      · rw [if_neg hc19] at h
                                        by_cases hc20 : (c == '+') = true
                                        · rw [if_pos hc20] at h
                                          cases h
                                          exact absurd ht (by simp)
                                        · rw [if_neg hc20] at h
                                          unfold readText at h
                                          split at h
                                          · cases h
                                            exact absurd ht (by simp)
                                          · cases h
                                            injection ht with hr2
                                            subst hr2
                                            intro c2 hc2mem
                                            simp only [textRunOf, List.mem_cons] at hc2mem
                                            rcases hc2mem with rfl | hmem
                                            · cases hb : textStop c2 with
                                              | false => rfl
                                              | true =>
                                                exfalso
                                                simp only [textStop, Bool.or_eq_true] at hb
                                                simp only [isWsChar, Bool.or_eq_true] at hc3
                                                tauto
                                            · have hp := List.mem_takeWhile_imp hmem
                                              simpa using hp

theorem tokenizeAux_text_chars : ∀ fuel cs l col ts,
    tokenizeAux fuel cs l col = some (.ok ts) →
    ∀ r, Token.Text r ∈ ts → ∀ c2 ∈ r, textStop c2 = false := by
  intro fuel
  induction fuel with
  | zero => intro cs l col ts h; simp [tokenizeAux] at h
  | succ fuel ih =>
    intro cs l col ts h
    cases cs with
    | nil =>
      intro r hmem
      rw [show tokenizeAux (fuel + 1) ([] : List Char) l col = some (.ok [Token.Eof]) from rfl]
        at h
      injection h with h2
      injection h2 with h3
      rw [← h3] at hmem
      simp at hmem
    | cons c cs2 =>
      cases hrt : readToken c cs2 l col with
      | error e => simp [tokenizeAux, hrt] at h
      | ok tup =>
        obtain ⟨t, rest, l', col'⟩ := tup
        cases hr : tokenizeAux fuel rest l' col' with
        | none => simp [tokenizeAux, hrt, hr] at h
        | some r2 =>
          cases r2 with
          | error e => simp [tokenizeAux, hrt, hr] at h
          | ok ts1 =>
            simp only [tokenizeAux, hrt, hr] at h
            injection h with h2
            injection h2 with h3
            intro r hmem
            rw [← h3] at hmem
            rcases List.mem_cons.mp hmem with heq | hmem2
            · exact readToken_text_chars c cs2 l col t rest l' col' r hrt heq.symm
            · exact ih rest l' col' ts1 hr r hmem2

/-- C3 (amended): every Text token produced by tokenize contains no
whitespace, no newline, and none of the characters of the read_text
stop set — the markers #, *, `, _, ~ and the symbols [, ], (, ), !, >,
-, |, + — but the stop set does not include the dot, the colon, or the
digits, so a Text token may contain a dot or a colon. -/
theorem c3_text_token_chars :
    ∀ cs ts r c2, tokenize cs = some (.ok ts) → Token.Text r ∈ ts → c2 ∈ r →
      textStop c2 = false :=
  fun cs ts r c2 h hmem hc2 =>
    tokenizeAux_text_chars (cs.length + 1) cs 1 1 ts h r hmem c2 hc2

/-- C3 witness: the theorem applied to tokenize "a.b", whose single Text
token contains the dot character, which is indeed outside the stop set. -/
theorem c3_witness :
    Token.Text ['a', '.', 'b'] ∈ [Token.Text ['a', '.', 'b'], Token.Eof] ∧
    textStop '.' = false :=
  ⟨by decide,
   c3_text_token_chars "a.b".toList [.Text ['a', '.', 'b'], .Eof] ['a', '.', 'b'] '.'
     rfl (by decide) (by decide)⟩

-- ======================================================================
-- C9: round-trip of a markup-free paragraph through lexer, parser and
-- text_content.
-- ======================================================================

/-- Every character in the read_text stop set starts a dispatch arm of
read_token. -/
theorem textStop_special (d : Char) (h : textStop d = true) : specialStart d = true := by
  simp only [textStop, Bool.or_eq_true] at h
  simp only [specialStart, Bool.or_eq_true, isWsChar]
  tauto

/-- A space or tab starts a dispatch arm of read_token. -/
theorem ws_special (c : Char) (h : isWsChar c = true) : specialStart c = true := by
  simp only [specialStart, Bool.or_eq_true]
  tauto

/-- A space or tab stops a text run. -/
theorem ws_textStop (d : Char) (h : isWsChar d = true) : textStop d = true := by
  simp only [isWsChar, Bool.or_eq_true] at h
  simp only [textStop, Bool.or_eq_true]
  tauto

/-- A paragraph character inside a text run is neither whitespace nor a
dispatch character. -/
theorem plain_of_run (d : Char) (hp : plainOrWs d = true) (ht : textStop d = false) :
    isWsChar d = false ∧ specialStart d = false := by
  have hws : isWsChar d = false := by
    by_contra hx
    have hx2 : isWsChar d = true := by simpa using hx
    rw [ws_textStop d hx2] at ht
    exact Bool.noConfusion ht
  refine ⟨hws, ?_⟩
  rw [plainOrWs, hws] at hp
  simpa [plainChar] using hp

/-- On a character outside every dispatch arm, read_token defers to
read_text. -/
theorem readToken_plain (c : Char) (cs : List Char) (l col : Nat)
    (h : specialStart c = false) :
    readToken c cs l col = .ok (readText c cs l col) := by
  rw [specialStart] at h
  repeat rw [Bool.or_eq_false_iff] at h
  obtain ⟨⟨⟨⟨⟨⟨⟨⟨⟨⟨⟨⟨⟨⟨⟨⟨⟨⟨⟨e1, e2⟩, e3⟩, e4⟩, e5⟩, e6⟩, e7⟩, e8⟩, e9⟩, e10⟩, e11⟩, e12⟩, e13⟩, e14⟩, e15⟩, e16⟩, e17⟩, e18⟩, e19⟩, e20⟩ := h
  unfold readToken
  rw [if_neg (by simp [e1]), if_neg (by simp [e2]), if_neg (by simp [e3]),
    if_neg (by simp [e4]), if_neg (by simp [e5]), if_neg (by simp [e6]),
    if_neg (by simp [e7]), if_neg (by simp [e8]), if_neg (by simp [e9]),
    if_neg (by simp [e10]), if_neg (by simp [e11]), if_neg (by simp [e12]),
    if_neg (by simp [e13]), if_neg (by simp [e14]), if_neg (by simp [e15]),
    if_neg (by simp [e16]), if_neg (by simp [e17]), if_neg (by simp [e18]),
    if_neg (by simp [e19]), if_neg (by simp [e20])]

/-- On a space or tab, read_token emits a Whitespace token and drops the
whitespace run. -/
theorem readToken_ws (c : Char) (cs : List Char) (l col : Nat) (h : isWsChar c = true) :
    readToken c cs l col =
      .ok (.Whitespace, (c :: cs).dropWhile isWsChar, l,
        col + ((c :: cs).takeWhile isWsChar).length) := by
  have h2 : c = ' ' ∨ c = '\t' := by
    simpa only [isWsChar, Bool.or_eq_true, beq_iff_eq] using h
  rcases h2 with rfl | rfl
  · rfl
  · rfl

/-- Collapsing in skip mode equals collapsing after dropping the leading
whitespace run. -/
theorem specCollapseAux_true_eq (l : List Char) :
    specCollapseAux true l = specCollapseAux false (l.dropWhile isWsChar) := by
  induction l with
  | nil => rfl
  | cons c cs ih =>
    by_cases hc : isWsChar c = true
    · simp [specCollapseAux, List.dropWhile_cons, hc, ih]
    · have hc2 : isWsChar c = false := by simpa using hc
      simp [specCollapseAux, List.dropWhile_cons, hc2]

/-- Collapsing distributes over a whitespace-free prefix. -/
theorem specCollapseAux_append (w rest : List Char)
    (hw : ∀ c ∈ w, isWsChar c = false) :
    specCollapseAux false (w ++ rest) = w ++ specCollapseAux false rest := by
  induction w with
  | nil => rfl
  | cons c cs ih =>
    have hc : isWsChar c = false := hw c (by simp)
    simp [specCollapseAux, hc, ih (fun d hd => hw d (by simp [hd]))]

/-- A matched prefix is contained in the list it prefixes. -/
theorem startsWithL_mem (p l : List Char) (h : startsWithL p l = true) :
    ∀ x ∈ p, x ∈ l := by
  induction p generalizing l with
  | nil => intro x hx; exact absurd hx (List.not_mem_nil x)
  | cons a ps ih =>
    cases l with
    | nil => exact absurd h (by simp [startsWithL])
    | cons c cs =>
      simp only [startsWithL, Bool.and_eq_true, beq_iff_eq] at h
      obtain ⟨rfl, h2⟩ := h
      intro x hx
      rcases List.mem_cons.mp hx with rfl | hx2
      · exact List.mem_cons_self _ _
      · exact List.mem_cons_of_mem _ (ih cs h2 x hx2)

/-- Membership survives dropWhile. -/
theorem mem_of_mem_dropWhile {α : Type} (p : α → Bool) (l : List α) (x : α)
    (h : x ∈ l.dropWhile p) : x ∈ l := (List.dropWhile_sublist p).subset h

/-- Membership survives takeWhile. -/
theorem mem_of_mem_takeWhile {α : Type} (p : α → Bool) (l : List α) (x : α)
    (h : x ∈ l.takeWhile p) : x ∈ l := (List.takeWhile_sublist p).subset h

/-- The current token is the head of the not-yet-consumed token list. -/
theorem currentToken_eq_head (s : PState) :
    currentToken s = (s.tokens.drop s.current).head? := by
  rw [currentToken, List.get?_eq_getElem?, ← List.head?_drop]

/-- A current token other than Eof means the parser is not at the end. -/
theorem isAtEnd_false_of_tok (s : PState) (t : Token) (h : currentToken s = some t)
    (hne : t ≠ .Eof) : isAtEnd s = false := by
  have hlt : s.current < s.tokens.length := by
    by_contra hge
    rw [Nat.not_lt] at hge
    rw [currentToken, List.get?_eq_none.mpr hge] at h
    exact Option.noConfusion h
  unfold isAtEnd
  rw [h]
  cases t <;> simp_all [Nat.not_le.mpr hlt]

/-- A current Eof token means the parser is at the end. -/
theorem isAtEnd_true_of_eof (s : PState) (h : currentToken s = some .Eof) :
    isAtEnd s = true := by
  unfold isAtEnd
  rw [h]
  simp

/-- Advancing over a token that is neither Eof nor Newline moves to the
next token on the same line. -/
theorem advance_plain_tok (s : PState) (t : Token) (h : currentToken s = some t)
    (hne : t ≠ .Eof) (hnl : t ≠ .Newline) :
    advance s = { s with current := s.current + 1, column := s.column + 1 } := by
  unfold advance
  rw [isAtEnd_false_of_tok s t h hne, h]
  cases t <;> simp_all

/-- skip_whitespace is the identity when the current token is not a
Whitespace token. -/
theorem skipWhitespace_id (s : PState) (h : currentToken s ≠ some .Whitespace) :
    skipWhitespace s = s := by
  unfold skipWhitespace
  cases hn : s.tokens.length - s.current with
  | zero => rfl
  | succ n =>
    unfold skipWsAux
    cases hcur : currentToken s with
    | none => simp [hcur]
    | some t => cases t <;> simp_all

/-- On markup-free input (only plain characters, spaces and tabs) the
lexer succeeds and yields only Text and Whitespace tokens; flattening
them (Text runs verbatim, Whitespace as one space) gives exactly the
whitespace-collapsed input, there are at most as many tokens as
characters, and a non-whitespace first character yields a leading Text
token. -/
theorem lexPlain : ∀ n cs, cs.length < n → (∀ c ∈ cs, plainOrWs c = true) →
    ∃ ts : List Token,
      (∀ fuel l col, cs.length < fuel →
        tokenizeAux fuel cs l col = some (.ok (ts ++ [Token.Eof]))) ∧
      (∀ t ∈ ts, t = Token.Whitespace ∨ ∃ r, t = Token.Text r) ∧
      flattenToks ts = specCollapseAux false cs ∧
      ts.length ≤ cs.length ∧
      (∀ c cs2, cs = c :: cs2 → isWsChar c = false →
        ∃ r ts2, ts = Token.Text r :: ts2) := by
  intro n
  induction n with
  | zero => intro cs h _; exact absurd h (by omega)
  | succ n ih =>
    intro cs hlen hmem
    cases cs with
    | nil =>
      refine ⟨[], ?_, ?_, rfl, by simp, ?_⟩
      · intro fuel l col hf
        cases fuel with
        | zero => exact absurd hf (by omega)
        | succ f => rfl
      · intro t ht; exact absurd ht (List.not_mem_nil t)
      · intro c cs2 hcs; exact absurd hcs (by simp)
    | cons c cs2 =>
      by_cases hws : isWsChar c = true
      · -- leading whitespace run
        have hR : (c :: cs2).dropWhile isWsChar = cs2.dropWhile isWsChar := by
          rw [List.dropWhile_cons, if_pos hws]
        have hrlen : (cs2.dropWhile isWsChar).length < n := by
          have h1 := dropWhileLenLe isWsChar cs2
          simp only [List.length_cons] at hlen
          omega
        have hrmem : ∀ d ∈ cs2.dropWhile isWsChar, plainOrWs d = true := by
          intro d hd
          exact hmem d (List.mem_cons_of_mem c (mem_of_mem_dropWhile _ _ _ hd))
        obtain ⟨ts2, htok, hshape, hflat, hlenle, _⟩ :=
          ih (cs2.dropWhile isWsChar) hrlen hrmem
        refine ⟨Token.Whitespace :: ts2, ?_, ?_, ?_, ?_, ?_⟩
        · intro fuel l col hf
          cases fuel with
          | zero => exact absurd hf (by omega)
          | succ f =>
            have hfr : (cs2.dropWhile isWsChar).length < f := by
              have h1 := dropWhileLenLe isWsChar cs2
              simp only [List.length_cons] at hf
              omega
            have h1 := htok f l (col + ((c :: cs2).takeWhile isWsChar).length) hfr
            simp only [tokenizeAux, readToken_ws c cs2 l col hws, hR, h1]
            rfl
        · intro t ht
          rcases List.mem_cons.mp ht with rfl | ht2
          · exact Or.inl rfl
          · exact hshape t ht2
        · show flattenToks (Token.Whitespace :: ts2) = specCollapseAux false (c :: cs2)
          rw [show specCollapseAux false (c :: cs2) = ' ' :: specCollapseAux true cs2 from by
            simp [specCollapseAux, hws]]
          rw [specCollapseAux_true_eq]
          simp only [flattenToks, hflat]
        · have h1 := dropWhileLenLe isWsChar cs2
          simp only [List.length_cons]
          omega
        · intro c0 cs0 hcs hc0
          injection hcs with hc hcs2
          rw [hc] at hws
          rw [hws] at hc0
          exact Bool.noConfusion hc0
      · -- leading plain character: a text run
        have hwsf : isWsChar c = false := by simpa using hws
        have hpc : plainChar c = true := by
          have h1 := hmem c (List.mem_cons_self c cs2)
          rw [plainOrWs, hwsf] at h1
          simpa using h1
        have hspec : specialStart c = false := by
          rw [plainChar] at hpc
          simpa using hpc
        have hrunplain : ∀ d ∈ textRunOf c cs2, isWsChar d = false ∧ specialStart d = false := by
          intro d hd
          rcases List.mem_cons.mp hd with rfl | hd2
          · exact ⟨hwsf, hspec⟩
          · have hdc : d ∈ cs2 := mem_of_mem_takeWhile _ _ _ hd2
            have hP := List.mem_takeWhile_imp hd2
            have hstop : textStop d = false := by
              simpa using hP
            exact plain_of_run d (hmem d (List.mem_cons_of_mem c hdc)) hstop
        have hnu1 : startsWithL "http://".toList (textRunOf c cs2) = false := by
          by_contra hx
          have hx2 : startsWithL "http://".toList (textRunOf c cs2) = true := by simpa using hx
          have hcol : (':' : Char) ∈ textRunOf c cs2 :=
            startsWithL_mem _ _ hx2 ':' (by decide)
          have := (hrunplain ':' hcol).2
          exact absurd this (by decide)
        have hnu2 : startsWithL "https://".toList (textRunOf c cs2) = false := by
          by_contra hx
          have hx2 : startsWithL "https://".toList (textRunOf c cs2) = true := by simpa using hx
          have hcol : (':' : Char) ∈ textRunOf c cs2 :=
            startsWithL_mem _ _ hx2 ':' (by decide)
          have := (hrunplain ':' hcol).2
          exact absurd this (by decide)
        have hnu3 : startsWithL "ftp://".toList (textRunOf c cs2) = false := by
          by_contra hx
          have hx2 : startsWithL "ftp://".toList (textRunOf c cs2) = true := by simpa using hx
          have hcol : (':' : Char) ∈ textRunOf c cs2 :=
            startsWithL_mem _ _ hx2 ':' (by decide)
          have := (hrunplain ':' hcol).2
          exact absurd this (by decide)
        have hnu4 : startsWithL "mailto:".toList (textRunOf c cs2) = false := by
          by_contra hx
          have hx2 : startsWithL "mailto:".toList (textRunOf c cs2) = true := by simpa using hx
          have hcol : (':' : Char) ∈ textRunOf c cs2 :=
            startsWithL_mem _ _ hx2 ':' (by decide)
          have := (hrunplain ':' hcol).2
          exact absurd this (by decide)
        have hrt : ∀ l col, readToken c cs2 l col =
            .ok (.Text (textRunOf c cs2), cs2.dropWhile (fun d => !textStop d), l,
              col + (textRunOf c cs2).length) := by
          intro l col
          rw [readToken_plain c cs2 l col hspec]
          unfold readText
          rw [hnu1, hnu2, hnu3, hnu4]
          rfl
        have hrlen : (cs2.dropWhile (fun d => !textStop d)).length < n := by
          have h1 := dropWhileLenLe (fun d => !textStop d) cs2
          simp only [List.length_cons] at hlen
          omega
        have hrmem : ∀ d ∈ cs2.dropWhile (fun d => !textStop d), plainOrWs d = true := by
          intro d hd
          exact hmem d (List.mem_cons_of_mem c (mem_of_mem_dropWhile _ _ _ hd))
        obtain ⟨ts2, htok, hshape, hflat, hlenle, _⟩ :=
          ih (cs2.dropWhile (fun d => !textStop d)) hrlen hrmem
        refine ⟨Token.Text (textRunOf c cs2) :: ts2, ?_, ?_, ?_, ?_, ?_⟩
        · intro fuel l col hf
          cases fuel with
          | zero => exact absurd hf (by omega)
          | succ f =>
            have hfr : (cs2.dropWhile (fun d => !textStop d)).length < f := by
              have h1 := dropWhileLenLe (fun d => !textStop d) cs2
              simp only [List.length_cons] at hf
              omega
            have h1 := htok f l (col + (textRunOf c cs2).length) hfr
            simp only [tokenizeAux, hrt l col, h1]
            rfl
        · intro t ht
          rcases List.mem_cons.mp ht with rfl | ht2
          · exact Or.inr ⟨textRunOf c cs2, rfl⟩
          · exact hshape t ht2
        · show flattenToks (Token.Text (textRunOf c cs2) :: ts2) = specCollapseAux false (c :: cs2)
          have hwpre : ∀ d ∈ cs2.takeWhile (fun d => !textStop d), isWsChar d = false := by
            intro d hd
            exact (hrunplain d (List.mem_cons_of_mem c hd)).1
          rw [show specCollapseAux false (c :: cs2) = c :: specCollapseAux false cs2 from by
            simp [specCollapseAux, hwsf]]
          rw [show (cs2 : List Char) = cs2.takeWhile (fun d => !textStop d) ++
            cs2.dropWhile (fun d => !textStop d) from (List.takeWhile_append_dropWhile _ _).symm]
          rw [specCollapseAux_append _ _ hwpre]
          simp only [flattenToks, hflat, textRunOf]
          simp [List.takeWhile_append_dropWhile]
        · have h1 := dropWhileLenLe (fun d => !textStop d) cs2
          simp only [List.length_cons]
          omega
        · intro c0 cs0 _ _
          exact ⟨textRunOf c cs2, ts2, rfl⟩

/-- On a stream of Text and Whitespace tokens followed by Eof, the
paragraph loop consumes every token, appending one inline Text node per
token, and stops at the Eof token. -/
theorem paragraphLoopPlain : ∀ rest : List Token, ∀ fuel acc s,
    (∀ t ∈ rest, t = Token.Whitespace ∨ ∃ r, t = Token.Text r) →
    s.tokens.drop s.current = rest ++ [Token.Eof] →
    rest.length + 2 ≤ fuel →
    ∃ s2, paragraphLoop fuel acc s = some (.ok (acc ++ rest.map tokNode, s2)) ∧
      currentToken s2 = some Token.Eof := by
  intro rest
  induction rest with
  | nil =>
    intro fuel acc s _ hdrop hfuel
    have hcur : currentToken s = some Token.Eof := by
      rw [currentToken_eq_head, hdrop]; rfl
    cases fuel with
    | zero => exact absurd hfuel (by omega)
    | succ f =>
      refine ⟨s, ?_, hcur⟩
      simp [paragraphLoop, hcur]
  | cons t rest2 ihr =>
    intro fuel acc s hshape hdrop hfuel
    have hcur : currentToken s = some t := by
      rw [currentToken_eq_head, hdrop]; rfl
    have hts := hshape t (List.mem_cons_self t rest2)
    have hne : t ≠ Token.Eof := by rcases hts with rfl | ⟨r, rfl⟩ <;> simp
    have hnl : t ≠ Token.Newline := by rcases hts with rfl | ⟨r, rfl⟩ <;> simp
    have hadv : advance s = { s with current := s.current + 1, column := s.column + 1 } :=
      advance_plain_tok s t hcur hne hnl
    have hdrop2 : (advance s).tokens.drop (advance s).current = rest2 ++ [Token.Eof] := by
      rw [hadv]
      show s.tokens.drop (s.current + 1) = _
      rw [← List.tail_drop, hdrop]
      rfl
    cases fuel with
    | zero => exact absurd hfuel (by omega)
    | succ f =>
    cases f with
    | zero => exact absurd hfuel (by simp)
    | succ f1 =>
    have hbound : rest2.length + 2 ≤ f1 + 1 := by
      simp only [List.length_cons] at hfuel
      omega
    obtain ⟨s2, hloop, heof⟩ := ihr (f1 + 1) (acc ++ [tokNode t]) (advance s)
      (fun x hx => hshape x (List.mem_cons_of_mem t hx)) hdrop2 hbound
    refine ⟨s2, ?_, heof⟩
    rcases hts with rfl | ⟨r, rfl⟩
    · rw [show tokNode Token.Whitespace = AstNode.Text [' '] from rfl] at hloop
      rw [paragraphLoop, hcur]
      simp only [parseInlineContent, hcur, pbind]
      rw [hloop]
      simp [List.append_assoc, show tokNode Token.Whitespace = AstNode.Text [' '] from rfl]
    · rw [show tokNode (Token.Text r) = AstNode.Text r from rfl] at hloop
      rw [paragraphLoop, hcur]
      simp only [parseInlineContent, hcur, pbind]
      rw [hloop]
      simp [List.append_assoc, show tokNode (Token.Text r) = AstNode.Text r from rfl]

/-- Rendering a stream of Text and Whitespace tokens as inline nodes and
taking their text content flattens the tokens. -/
theorem textContentList_map_tokNode (ts : List Token)
    (h : ∀ t ∈ ts, t = Token.Whitespace ∨ ∃ r, t = Token.Text r) :
    textContentList (ts.map tokNode) = flattenToks ts := by
  induction ts with
  | nil => rfl
  | cons t ts2 ih =>
    have ih2 := ih (fun x hx => h x (List.mem_cons_of_mem t hx))
    rcases h t (List.mem_cons_self t ts2) with rfl | ⟨r, rfl⟩
    · show textContentList (AstNode.Text [' '] :: ts2.map tokNode) =
        ' ' :: flattenToks ts2
      simp only [textContentList, textContent, ih2]
      rfl
    · show textContentList (AstNode.Text r :: ts2.map tokNode) = r ++ flattenToks ts2
      simp only [textContentList, textContent, ih2]

/-- A token stream made of a leading Text token, further Text and
Whitespace tokens and a final Eof parses to a Document holding a single
Paragraph with one inline Text node per token. -/
theorem parseTokensPlain (t0 : Token) (rest : List Token) (fuel : Nat)
    (hshape : ∀ t ∈ t0 :: rest, t = Token.Whitespace ∨ ∃ r, t = Token.Text r)
    (ht0 : ∃ r, t0 = Token.Text r)
    (hfuel : rest.length + 6 ≤ fuel) :
    parseTokens fuel ((t0 :: rest) ++ [Token.Eof]) =
      some (.ok (.Document [.Paragraph ((t0 :: rest).map tokNode)])) := by
  cases fuel with
  | zero => exact absurd hfuel (by omega)
  | succ g1 =>
  cases g1 with
  | zero => exact absurd hfuel (by omega)
  | succ g2 =>
  cases g2 with
  | zero => exact absurd hfuel (by omega)
  | succ g3 =>
  obtain ⟨r, rfl⟩ := ht0
  have hcur0 : currentToken ⟨(Token.Text r :: rest) ++ [Token.Eof], 0, 1, 1⟩ =
      some (Token.Text r) := rfl
  have hskip : skipWhitespace ⟨(Token.Text r :: rest) ++ [Token.Eof], 0, 1, 1⟩ =
      ⟨(Token.Text r :: rest) ++ [Token.Eof], 0, 1, 1⟩ :=
    skipWhitespace_id _ (by rw [hcur0]; simp)
  have hdrop : (⟨(Token.Text r :: rest) ++ [Token.Eof], 0, 1, 1⟩ : PState).tokens.drop
      (⟨(Token.Text r :: rest) ++ [Token.Eof], 0, 1, 1⟩ : PState).current =
      (Token.Text r :: rest) ++ [Token.Eof] := rfl
  obtain ⟨s2, hloop, heof⟩ := paragraphLoopPlain (Token.Text r :: rest) g3 []
    ⟨(Token.Text r :: rest) ++ [Token.Eof], 0, 1, 1⟩ hshape hdrop
    (by simp only [List.length_cons] at hfuel ⊢; omega)
  have hpar : parseParagraph (g3 + 1) ⟨(Token.Text r :: rest) ++ [Token.Eof], 0, 1, 1⟩ =
      some (.ok (.Paragraph ((Token.Text r :: rest).map tokNode), s2)) := by
    rw [parseParagraph, hloop]
    rfl
  have hblk : parseBlock (g3 + 2) ⟨(Token.Text r :: rest) ++ [Token.Eof], 0, 1, 1⟩ =
      some (.ok (some (.Paragraph ((Token.Text r :: rest).map tokNode)), s2)) := by
    rw [parseBlock]
    rw [hskip, hcur0]
    simp only [hpar, pbind]
  have hdoc : parseDocLoop (g3 + 3) [] ⟨(Token.Text r :: rest) ++ [Token.Eof], 0, 1, 1⟩ =
      some (.ok (.Document [.Paragraph ((Token.Text r :: rest).map tokNode)], s2)) := by
    rw [parseDocLoop]
    rw [if_neg (by
      rw [isAtEnd_false_of_tok _ (Token.Text r) hcur0 (by simp)]
      simp)]
    simp only [hblk, pbind]
    rw [parseDocLoop]
    rw [if_pos (isAtEnd_true_of_eof s2 heof)]
    simp [Option.toList]
  show parseTokens (g3 + 3) ((Token.Text r :: rest) ++ [Token.Eof]) = _
  rw [parseTokens, hdoc]

/-- C9 (amended): for an input that is a single markup-free paragraph —
a plain first character followed by plain characters, spaces and tabs —
parse_markdown yields a Document holding exactly one Paragraph, and
text_content of that Paragraph is the input with each whitespace run
collapsed to a single space.  (The original claim, stated for every
markup-free input, fails on inputs with leading whitespace, which
parse_block skips: see the counterexample.) -/
theorem c9_plain_paragraph_collapse (c0 : Char) (cs : List Char) (fuel : Nat)
    (h0 : plainChar c0 = true) (hcs : ∀ c ∈ cs, plainOrWs c = true)
    (hfuel : cs.length + 7 ≤ fuel) :
    ∃ content, parseMarkdown fuel (c0 :: cs) = some (.ok (.Document [.Paragraph content])) ∧
      textContent (.Paragraph content) = specCollapseWhitespace (c0 :: cs) := by
  have hmem : ∀ c ∈ c0 :: cs, plainOrWs c = true := by
    intro c hc
    rcases List.mem_cons.mp hc with rfl | hc2
    · simp [plainOrWs, h0]
    · exact hcs c hc2
  obtain ⟨ts, htok, hshape, hflat, hlenle, hhead⟩ :=
    lexPlain ((c0 :: cs).length + 1) (c0 :: cs) (by omega) hmem
  have h0ws : isWsChar c0 = false := by
    by_contra hx
    have hx2 : isWsChar c0 = true := by simpa using hx
    have h1 := ws_special c0 hx2
    rw [plainChar, h1] at h0
    exact Bool.noConfusion h0
  obtain ⟨r, ts2, rfl⟩ := hhead c0 cs rfl h0ws
  have htokenize : tokenize (c0 :: cs) = some (.ok ((Token.Text r :: ts2) ++ [Token.Eof])) := by
    rw [tokenize]
    exact htok ((c0 :: cs).length + 1) 1 1 (by omega)
  have hpt := parseTokensPlain (Token.Text r) ts2 fuel hshape ⟨r, rfl⟩ (by
    simp only [List.length_cons] at hlenle hfuel
    omega)
  refine ⟨(Token.Text r :: ts2).map tokNode, ?_, ?_⟩
  · rw [parseMarkdown, htokenize]
    exact hpt
  · rw [show textContent (AstNode.Paragraph ((Token.Text r :: ts2).map tokNode)) =
      textContentList ((Token.Text r :: ts2).map tokNode) from rfl]
    rw [textContentList_map_tokNode _ hshape, hflat]
    rfl

/-- The amended C9 theorem at the concrete input "ab cd". -/
theorem c9_witness :
    plainChar 'a' = true ∧
    (∀ c ∈ ['b', ' ', 'c', 'd'], plainOrWs c = true) ∧
    (∃ content,
      parseMarkdown 11 ('a' :: ['b', ' ', 'c', 'd']) =
        some (.ok (.Document [.Paragraph content])) ∧
      textContent (.Paragraph content) = specCollapseWhitespace ('a' :: ['b', ' ', 'c', 'd'])) :=
  ⟨by decide, by decide,
   c9_plain_paragraph_collapse 'a' ['b', ' ', 'c', 'd'] 11 (by decide) (by decide) (by decide)⟩
